import Mathlib

/-!
Verification of the Website-Generator repository's specification against a
shallow embedding of its source code (`src/Complete.py`, `src/test.py`).

The embedding keeps the source structure:
* the retry wrapper `api_call_with_backoff` (both the `Complete.py` variant and
  the `test.py` variant, which differ on HTTP 400) becomes an explicit trace of
  attempts and virtual sleeps;
* `suggest_pages`' reply post-processing becomes a pure function on the reply
  text;
* the JSON parsing and recovery in `generate_website` is modelled with a
  faithful executable model of Python's `json.loads` / `JSONDecoder.raw_decode`;
* the browser-side document tree (`findNodeAndParent`, `deleteSelectedElement`,
  `addChildElement` of `test.py`) becomes a functional tree with keyed updates;
* the renderers (`renderWebsite`, `downloadHTML` of `Complete.py`) become pure
  string builders.
-/

namespace WebGen

/-! ## Backoff client (`api_call_with_backoff`)

`Complete.py` lines 27-46 and `test.py` lines 20-42. One outbound attempt is
abstracted by its observable outcome: an HTTP response (status code plus the
payload that `response.json()` would yield; the body is assumed to parse, the
claims do not depend on unparseable bodies), or a raised
`requests.exceptions.RequestException` (connection error, timeout, ...). -/

inductive Attempt where
  | response (status : Nat) (body : String)
  | netError (msg : String)
deriving DecidableEq

/-- The `requests` library: `Response.raise_for_status()` raises `HTTPError`
exactly for status codes in `[400, 600)`; every other status returns normally
(so `api_call_with_backoff` returns such a response as its success value). -/
def raisesForStatus (status : Nat) : Bool :=
  decide (400 ≤ status) && decide (status < 600)

/-- Whether an attempt makes the `try` body raise (either `HTTPError` from
`raise_for_status` or a network-level `RequestException`). -/
def isFailure : Attempt → Bool
  | .response st _ => raisesForStatus st
  | .netError _ => true

/-- Whether an attempt is an HTTP response with status code exactly 400 (the
case `test.py`'s variant refuses to retry). -/
def isHttp400 : Attempt → Bool
  | .response st _ => decide (st = 400)
  | .netError _ => false

inductive BackoffResult where
  | ok (payload : String)
  | raisedHttp (status : Nat) (body : String)
  | raisedNet (msg : String)
  | fellThrough
deriving DecidableEq

/-- What one call of `api_call_with_backoff` did: how many attempts ran, the
`time.sleep` durations in order (virtual time), and how the call ended.
`fellThrough` is Python's implicit `return None` when `range(max_retries)` is
empty. -/
structure BackoffTrace where
  attempts : Nat
  delays : List Nat
  result : BackoffResult
deriving DecidableEq

/-- The retry loop of `Complete.py`'s `api_call_with_backoff`, at iteration `i`
of `for i in range(max_retries)` with `remaining` iterations left
(`remaining = max_retries - i` at every reachable call). On an exception the
code checks `if i >= max_retries - 1: raise` and otherwise sleeps
`initial_delay * (2 ** i)` before the next iteration. -/
def backoffGo (ep : Nat → Attempt) (maxRetries initialDelay : Nat) :
    Nat → Nat → BackoffTrace
  | 0, _ => ⟨0, [], .fellThrough⟩
  | remaining + 1, i =>
    match ep i with
    | .response st body =>
      if raisesForStatus st then
        if maxRetries - 1 ≤ i then ⟨1, [], .raisedHttp st body⟩
        else
          let t := backoffGo ep maxRetries initialDelay remaining (i + 1)
          ⟨t.attempts + 1, initialDelay * 2 ^ i :: t.delays, t.result⟩
      else ⟨1, [], .ok body⟩
    | .netError m =>
      if maxRetries - 1 ≤ i then ⟨1, [], .raisedNet m⟩
      else
        let t := backoffGo ep maxRetries initialDelay remaining (i + 1)
        ⟨t.attempts + 1, initialDelay * 2 ^ i :: t.delays, t.result⟩

/-- `Complete.py`'s `api_call_with_backoff(url, headers, payload, max_retries,
initial_delay)`: every raised exception (HTTP error status or network error)
is retried until the attempt budget is exhausted. -/
def apiCallWithBackoff (ep : Nat → Attempt) (maxRetries initialDelay : Nat) :
    BackoffTrace :=
  backoffGo ep maxRetries initialDelay maxRetries 0

/-- The retry loop of `test.py`'s `api_call_with_backoff`: identical to the
`Complete.py` variant except that inside the `HTTPError` handler it first runs
`if e.response.status_code == 400: ... raise`, aborting without a retry. -/
def backoffGoTest (ep : Nat → Attempt) (maxRetries initialDelay : Nat) :
    Nat → Nat → BackoffTrace
  | 0, _ => ⟨0, [], .fellThrough⟩
  | remaining + 1, i =>
    match ep i with
    | .response st body =>
      if raisesForStatus st then
        if st = 400 then ⟨1, [], .raisedHttp st body⟩
        else if maxRetries - 1 ≤ i then ⟨1, [], .raisedHttp st body⟩
        else
          let t := backoffGoTest ep maxRetries initialDelay remaining (i + 1)
          ⟨t.attempts + 1, initialDelay * 2 ^ i :: t.delays, t.result⟩
      else ⟨1, [], .ok body⟩
    | .netError m =>
      if maxRetries - 1 ≤ i then ⟨1, [], .raisedNet m⟩
      else
        let t := backoffGoTest ep maxRetries initialDelay remaining (i + 1)
        ⟨t.attempts + 1, initialDelay * 2 ^ i :: t.delays, t.result⟩

/-- `test.py`'s `api_call_with_backoff`. -/
def apiCallWithBackoffTest (ep : Nat → Attempt) (maxRetries initialDelay : Nat) :
    BackoffTrace :=
  backoffGoTest ep maxRetries initialDelay maxRetries 0

/-- How the `raise` in the final failed iteration surfaces an attempt. -/
def raiseOf : Attempt → BackoffResult
  | .response st body => .raisedHttp st body
  | .netError m => .raisedNet m

/-! ### Trace lemmas for the retry loops -/

theorem backoffGo_prefix (ep : Nat → Attempt) (N d : Nat) :
    ∀ m r i : Nat, r + i = N → i + m ≤ N - 1 →
      (∀ j, i ≤ j → j < i + m → isFailure (ep j) = true) →
      backoffGo ep N d r i =
        ⟨m + (backoffGo ep N d (r - m) (i + m)).attempts,
         ((List.range' i m).map fun j => d * 2 ^ j) ++
           (backoffGo ep N d (r - m) (i + m)).delays,
         (backoffGo ep N d (r - m) (i + m)).result⟩ := by
  intro m
  induction m with
  | zero => intro r i _ _ _; simp
  | succ m ih =>
    intro r i hri hle hfail
    obtain ⟨r', rfl⟩ : ∃ r', r = r' + 1 := ⟨r - 1, by omega⟩
    have hfi : isFailure (ep i) = true := hfail i (Nat.le_refl i) (by omega)
    have hnl : ¬ (N - 1 ≤ i) := by omega
    have hrec := ih r' (i + 1) (by omega) (by omega)
      (fun j h1 h2 => hfail j (by omega) (by omega))
    have harith1 : r' + 1 - (m + 1) = r' - m := by omega
    have harith2 : i + (m + 1) = i + 1 + m := by omega
    cases hep : ep i with
    | response st body =>
      rw [hep] at hfi
      simp only [isFailure] at hfi
      simp only [backoffGo, hep, if_pos hfi, if_neg hnl, hrec, harith1, harith2,
        List.range'_succ, List.map_cons, List.cons_append, BackoffTrace.mk.injEq,
        and_true, true_and]
      omega
    | netError msg =>
      simp only [backoffGo, hep, if_neg hnl, hrec, harith1, harith2,
        List.range'_succ, List.map_cons, List.cons_append, BackoffTrace.mk.injEq,
        and_true, true_and]
      omega

theorem backoffGoTest_prefix (ep : Nat → Attempt) (N d : Nat) :
    ∀ m r i : Nat, r + i = N → i + m ≤ N - 1 →
      (∀ j, i ≤ j → j < i + m → isFailure (ep j) = true) →
      (∀ j, i ≤ j → j < i + m → isHttp400 (ep j) = false) →
      backoffGoTest ep N d r i =
        ⟨m + (backoffGoTest ep N d (r - m) (i + m)).attempts,
         ((List.range' i m).map fun j => d * 2 ^ j) ++
           (backoffGoTest ep N d (r - m) (i + m)).delays,
         (backoffGoTest ep N d (r - m) (i + m)).result⟩ := by
  intro m
  induction m with
  | zero => intro r i _ _ _ _; simp
  | succ m ih =>
    intro r i hri hle hfail h400
    obtain ⟨r', rfl⟩ : ∃ r', r = r' + 1 := ⟨r - 1, by omega⟩
    have hfi : isFailure (ep i) = true := hfail i (Nat.le_refl i) (by omega)
    have h4i : isHttp400 (ep i) = false := h400 i (Nat.le_refl i) (by omega)
    have hnl : ¬ (N - 1 ≤ i) := by omega
    have hrec := ih r' (i + 1) (by omega) (by omega)
      (fun j h1 h2 => hfail j (by omega) (by omega))
      (fun j h1 h2 => h400 j (by omega) (by omega))
    have harith1 : r' + 1 - (m + 1) = r' - m := by omega
    have harith2 : i + (m + 1) = i + 1 + m := by omega
    cases hep : ep i with
    | response st body =>
      rw [hep] at hfi h4i
      simp only [isFailure] at hfi
      simp only [isHttp400, decide_eq_false_iff_not] at h4i
      simp only [backoffGoTest, hep, if_pos hfi, if_neg h4i, if_neg hnl,
        hrec, harith1, harith2,
        List.range'_succ, List.map_cons, List.cons_append, BackoffTrace.mk.injEq,
        and_true, true_and]
      omega
    | netError msg =>
      simp only [backoffGoTest, hep, if_neg hnl, hrec, harith1, harith2,
        List.range'_succ, List.map_cons, List.cons_append, BackoffTrace.mk.injEq,
        and_true, true_and]
      omega

theorem backoffGo_last (ep : Nat → Attempt) (N d i : Nat)
    (hlast : N - 1 ≤ i) (hf : isFailure (ep i) = true) :
    backoffGo ep N d 1 i = ⟨1, [], raiseOf (ep i)⟩ := by
  cases hep : ep i with
  | response st body =>
    rw [hep] at hf
    simp only [isFailure] at hf
    simp only [backoffGo, hep, hf, if_true, if_pos hlast, raiseOf]
  | netError msg => simp only [backoffGo, hep, if_pos hlast, raiseOf]

theorem backoffGoTest_last (ep : Nat → Attempt) (N d i : Nat)
    (hlast : N - 1 ≤ i) (hf : isFailure (ep i) = true) :
    backoffGoTest ep N d 1 i = ⟨1, [], raiseOf (ep i)⟩ := by
  cases hep : ep i with
  | response st body =>
    rw [hep] at hf
    simp only [isFailure] at hf
    by_cases h4 : st = 400
    · subst h4
      simp only [backoffGoTest, hep, hf, if_true, if_pos rfl, raiseOf]
    · simp only [backoffGoTest, hep, hf, if_true, if_neg h4, if_pos hlast, raiseOf]
  | netError msg => simp only [backoffGoTest, hep, if_pos hlast, raiseOf]

theorem backoffGo_success (ep : Nat → Attempt) (N d r i st : Nat) (payload : String)
    (hr : 1 ≤ r) (hep : ep i = .response st payload)
    (hok : raisesForStatus st = false) :
    backoffGo ep N d r i = ⟨1, [], .ok payload⟩ := by
  obtain ⟨r', rfl⟩ : ∃ r', r = r' + 1 := ⟨r - 1, by omega⟩
  simp [backoffGo, hep, hok]

theorem backoffGo_attempts_pos (ep : Nat → Attempt) (N d r i : Nat) (hr : 1 ≤ r) :
    1 ≤ (backoffGo ep N d r i).attempts := by
  obtain ⟨r', rfl⟩ : ∃ r', r = r' + 1 := ⟨r - 1, by omega⟩
  cases hep : ep i with
  | response st body =>
    simp only [backoffGo, hep]
    split
    · split <;> simp
    · simp
  | netError msg =>
    simp only [backoffGo, hep]
    split <;> simp

theorem backoffGoTest_attempts_pos (ep : Nat → Attempt) (N d r i : Nat) (hr : 1 ≤ r) :
    1 ≤ (backoffGoTest ep N d r i).attempts := by
  obtain ⟨r', rfl⟩ : ∃ r', r = r' + 1 := ⟨r - 1, by omega⟩
  cases hep : ep i with
  | response st body =>
    simp only [backoffGoTest, hep]
    split
    · split
      · simp
      · split <;> simp
    · simp
  | netError msg =>
    simp only [backoffGoTest, hep]
    split <;> simp

/-! ### Claims C1, C2, C3 -/

/-- C1 (amended): for a policy with `N = max_retries ≥ 1` attempts, base delay
`d = initial_delay > 0` and multiplier 2, against an endpoint that fails on
every attempt, `Complete.py`'s `api_call_with_backoff` performs exactly `N`
attempts, sleeps `d * 2 ^ i` after the `i`-th failed attempt for every
`i < N - 1`, and the total slept (virtual) time is
`d * (2 ^ 0 + ... + 2 ^ (N - 2))`, with no sleep after the final failed
attempt. The same holds for `test.py`'s variant provided no failing attempt is
an HTTP 400 response, which that variant re-raises at once instead of
retrying. -/
theorem c1_backoff_schedule (ep : Nat → Attempt) (N d : Nat)
    (hN : 1 ≤ N) (_hd : 0 < d)
    (hfail : ∀ i, i < N → isFailure (ep i) = true) :
    ((apiCallWithBackoff ep N d).attempts = N ∧
     (apiCallWithBackoff ep N d).delays =
       (List.range (N - 1)).map (fun i => d * 2 ^ i) ∧
     (apiCallWithBackoff ep N d).delays.sum =
       d * ((List.range (N - 1)).map fun i => (2 : Nat) ^ i).sum) ∧
    ((∀ i, i < N → isHttp400 (ep i) = false) →
      (apiCallWithBackoffTest ep N d).attempts = N ∧
      (apiCallWithBackoffTest ep N d).delays =
        (List.range (N - 1)).map (fun i => d * 2 ^ i)) := by
  constructor
  · have hpre := backoffGo_prefix ep N d (N - 1) N 0 (by omega) (by omega)
      (fun j h1 h2 => hfail j (by omega))
    rw [show N - (N - 1) = 1 by omega, show 0 + (N - 1) = N - 1 by omega,
      backoffGo_last ep N d (N - 1) (Nat.le_refl _) (hfail _ (by omega))] at hpre
    simp only [List.append_nil] at hpre
    unfold apiCallWithBackoff
    rw [hpre]
    dsimp only
    refine ⟨by omega, ?_, ?_⟩
    · simp [List.range_eq_range']
    · simp [List.range_eq_range', List.sum_map_mul_left]
  · intro h400
    have hpre := backoffGoTest_prefix ep N d (N - 1) N 0 (by omega) (by omega)
      (fun j h1 h2 => hfail j (by omega)) (fun j h1 h2 => h400 j (by omega))
    rw [show N - (N - 1) = 1 by omega, show 0 + (N - 1) = N - 1 by omega,
      backoffGoTest_last ep N d (N - 1) (Nat.le_refl _) (hfail _ (by omega))] at hpre
    simp only [List.append_nil] at hpre
    unfold apiCallWithBackoffTest
    rw [hpre]
    dsimp only
    exact ⟨by omega, by simp [List.range_eq_range']⟩

/-- Witness for C1's theorem: N = 3, d = 1, an endpoint always answering
HTTP 500 — three attempts and sleeps of 1 and 2 time units in both variants. -/
theorem c1_backoff_schedule_witness :
    (apiCallWithBackoff (fun _ => Attempt.response 500 "err") 3 1).attempts = 3 ∧
    (apiCallWithBackoff (fun _ => Attempt.response 500 "err") 3 1).delays = [1, 2] ∧
    (apiCallWithBackoffTest (fun _ => Attempt.response 500 "err") 3 1).attempts = 3 := by
  have h := c1_backoff_schedule (fun _ => Attempt.response 500 "err") 3 1
    (by decide) (by decide) (fun i _ => rfl)
  have ht := h.2 (fun i _ => rfl)
  refine ⟨h.1.1, ?_, ht.1⟩
  rw [h.1.2.1]
  decide

/-- Counterexample to C1 as stated: `test.py`'s `api_call_with_backoff` with
`max_retries = 3`, `initial_delay = 1`, against an endpoint that fails on
every attempt with HTTP 400, stops after one attempt with no sleep instead of
performing `N = 3` attempts with sleeps `1, 2`. -/
theorem c1_counterexample :
    (∀ i, i < 3 →
      isFailure ((fun _ => Attempt.response 400 "Bad Request") i) = true) ∧
    (apiCallWithBackoffTest (fun _ => Attempt.response 400 "Bad Request") 3 1).attempts
      = 1 ∧
    (apiCallWithBackoffTest (fun _ => Attempt.response 400 "Bad Request") 3 1).delays
      = [] ∧
    (apiCallWithBackoffTest (fun _ => Attempt.response 400 "Bad Request") 3 1).attempts
      ≠ 3 := by
  decide

/-- C2 (amended): for every attempt that is not the last and every failure the
`try` body raises as an HTTP error — a status in `[400, 600)`; statuses below
400, such as redirects, return from `raise_for_status` and are returned as the
success value — `Complete.py`'s `api_call_with_backoff` retries after the
backoff sleep, so at least `i + 2` attempts run once the first `i + 1` attempts
fail, and the first `i + 1` sleeps are the policy-computed delays. `test.py`'s
variant behaves the same except for status 400, which it re-raises at once. -/
theorem c2_retry_non_final (ep : Nat → Attempt) (N d i : Nat)
    (hi : i < N - 1)
    (hfail : ∀ j, j ≤ i → isFailure (ep j) = true) :
    (i + 2 ≤ (apiCallWithBackoff ep N d).attempts ∧
     (apiCallWithBackoff ep N d).delays.take (i + 1) =
       (List.range (i + 1)).map fun j => d * 2 ^ j) ∧
    ((∀ j, j ≤ i → isHttp400 (ep j) = false) →
      i + 2 ≤ (apiCallWithBackoffTest ep N d).attempts ∧
      (apiCallWithBackoffTest ep N d).delays.take (i + 1) =
        (List.range (i + 1)).map fun j => d * 2 ^ j) := by
  constructor
  · have hpre := backoffGo_prefix ep N d (i + 1) N 0 (by omega) (by omega)
      (fun j h1 h2 => hfail j (by omega))
    rw [show (0 : Nat) + (i + 1) = i + 1 by omega] at hpre
    unfold apiCallWithBackoff
    rw [hpre]
    have hpos := backoffGo_attempts_pos ep N d (N - (i + 1)) (i + 1) (by omega)
    refine ⟨by simp; omega, ?_⟩
    rw [List.take_left' (by simp), List.range_eq_range']
  · intro h400
    have hpre := backoffGoTest_prefix ep N d (i + 1) N 0 (by omega) (by omega)
      (fun j h1 h2 => hfail j (by omega)) (fun j h1 h2 => h400 j (by omega))
    rw [show (0 : Nat) + (i + 1) = i + 1 by omega] at hpre
    unfold apiCallWithBackoffTest
    rw [hpre]
    have hpos := backoffGoTest_attempts_pos ep N d (N - (i + 1)) (i + 1) (by omega)
    refine ⟨by simp; omega, ?_⟩
    rw [List.take_left' (by simp), List.range_eq_range']

/-- Witness for C2's theorem: after one failed (HTTP 503) non-final attempt
with N = 5, d = 1, both variants have slept 1 time unit and tried again. -/
theorem c2_retry_non_final_witness :
    2 ≤ (apiCallWithBackoff (fun _ => Attempt.response 503 "unavailable") 5 1).attempts ∧
    (apiCallWithBackoff (fun _ => Attempt.response 503 "unavailable") 5 1).delays.take 1
      = [1] ∧
    2 ≤ (apiCallWithBackoffTest (fun _ => Attempt.response 503 "unavailable") 5 1).attempts := by
  have h := c2_retry_non_final (fun _ => Attempt.response 503 "unavailable") 5 1 0
    (by decide) (fun j _ => rfl)
  have ht := h.2 (fun j _ => rfl)
  refine ⟨h.1.1, ?_, ht.1⟩
  rw [h.1.2]
  decide

/-- Counterexample to C2 as stated: an HTTP 400 reply (a non-2xx status) on a
non-final attempt is not retried by `test.py`'s `api_call_with_backoff`
(one attempt, no sleep, with `max_retries = 5`); and an HTTP 302 reply
(also a non-2xx status) is returned as the success value by `Complete.py`'s
variant rather than treated as a retryable failure. -/
theorem c2_counterexample :
    (apiCallWithBackoffTest (fun _ => Attempt.response 400 "Bad Request") 5 1).attempts
      = 1 ∧
    (apiCallWithBackoffTest (fun _ => Attempt.response 400 "Bad Request") 5 1).delays
      = [] ∧
    apiCallWithBackoff (fun _ => Attempt.response 302 "Found") 5 1
      = ⟨1, [], .ok "Found"⟩ := by
  decide

/-- C3 (confirmed): with `N ≥ 1` attempts, if the first `k - 1` attempts fail
(`k ≤ N`) and the `k`-th attempt returns a 2xx response, `Complete.py`'s
`api_call_with_backoff` performs exactly `k` attempts, exactly `k - 1`
inter-attempt sleeps occur (the policy-computed ones), and the success payload
is returned unmodified with no further attempts. -/
theorem c3_success_at_k (ep : Nat → Attempt) (N d k st : Nat) (payload : String)
    (hN : 1 ≤ N) (hk1 : 1 ≤ k) (hkN : k ≤ N)
    (hfail : ∀ j, j < k - 1 → isFailure (ep j) = true)
    (hsucc : ep (k - 1) = .response st payload)
    (h2xx : 200 ≤ st ∧ st < 300) :
    (apiCallWithBackoff ep N d).attempts = k ∧
    (apiCallWithBackoff ep N d).delays.length = k - 1 ∧
    (apiCallWithBackoff ep N d).delays =
      (List.range (k - 1)).map (fun j => d * 2 ^ j) ∧
    (apiCallWithBackoff ep N d).result = .ok payload := by
  have hok : raisesForStatus st = false := by
    simp only [raisesForStatus, Bool.and_eq_false_iff, decide_eq_false_iff_not]
    omega
  have hpre := backoffGo_prefix ep N d (k - 1) N 0 (by omega) (by omega)
    (fun j h1 h2 => hfail j (by omega))
  rw [show (0 : Nat) + (k - 1) = k - 1 by omega,
    backoffGo_success ep N d (N - (k - 1)) (k - 1) st payload (by omega) hsucc hok]
    at hpre
  simp only [List.append_nil] at hpre
  unfold apiCallWithBackoff
  rw [hpre]
  dsimp only
  refine ⟨by omega, by simp, by simp [List.range_eq_range'], rfl⟩

/-- The end-to-end scenario of spec section 8: HTTP 500 on attempts 1 and 2,
success on attempt 3. -/
def epScenario : Nat → Attempt := fun i =>
  if i < 2 then .response 500 "err" else .response 200 "page-json"

/-- Witness for C3's theorem: policy N = 3, d = 1 against `epScenario` gives
3 attempts, sleeps `[1, 2]`, and the attempt-3 payload. -/
theorem c3_success_at_k_witness :
    (apiCallWithBackoff epScenario 3 1).attempts = 3 ∧
    (apiCallWithBackoff epScenario 3 1).delays = [1, 2] ∧
    (apiCallWithBackoff epScenario 3 1).result = .ok "page-json" := by
  have h := c3_success_at_k epScenario 3 1 3 200 "page-json"
    (by decide) (by decide) (by decide)
    (fun j hj => by
      have : j < 2 := hj
      simp [epScenario, this, isFailure, raisesForStatus])
    (by simp [epScenario]) (by omega)
  refine ⟨h.1, ?_, h.2.2.2⟩
  rw [h.2.2.1]
  decide

/-! ## Content Requester: `suggest_pages` (`Complete.py` lines 226-245)

The reply post-processing
`pages = [p.strip() for p in text_response.strip().split(',') if p.strip()]`
followed by the `< 2` fallback and the `pages[:8]` truncation. -/

/-- The whitespace characters Python's `str.strip()` removes (ASCII subset;
the replies at issue are ASCII). -/
def isPySpace (c : Char) : Bool :=
  c = ' ' || c = '\t' || c = '\n' || c = '\r' || c = '\x0b' || c = '\x0c'

/-- Python `str.strip()` with no argument, on the character list. -/
def pyStripChars (l : List Char) : List Char :=
  ((l.dropWhile isPySpace).reverse.dropWhile isPySpace).reverse

/-- Python `str.strip()` with no argument. -/
def pyStrip (s : String) : String := String.mk (pyStripChars s.data)

/-- Python `str.split(',')`: splits at every comma; `""` gives `[""]`, and
empty segments are kept. -/
def splitOnCommaChars : List Char → List (List Char)
  | [] => [[]]
  | c :: rest =>
    if c = ',' then [] :: splitOnCommaChars rest
    else
      match splitOnCommaChars rest with
      | seg :: segs => (c :: seg) :: segs
      | [] => [[c]]

def pySplitComma (s : String) : List String :=
  (splitOnCommaChars s.data).map String.mk

/-- The list comprehension of `suggest_pages`: strip the reply, split on
commas, strip each segment, keep the non-empty ones. -/
def replySegments (textResponse : String) : List String :=
  ((pySplitComma (pyStrip textResponse)).map pyStrip).filter (fun p => p != "")

/-- `suggest_pages`' page list as a function of the Gemini reply text:
the segments, replaced by the default `["Home", "About", "Contact"]` when
`not pages or len(pages) < 2`, truncated by `pages[:8]`. -/
def suggestPagesFromReply (textResponse : String) : List String :=
  (if replySegments textResponse = [] ∨ (replySegments textResponse).length < 2
    then ["Home", "About", "Contact"]
    else replySegments textResponse).take 8

/-- C10 (confirmed): `suggest_pages` returns at most 8 page names; when the
reply yields at least 2 non-empty trimmed comma segments the result is exactly
the first 8 of them in their original order (so every returned name is a
non-empty trimmed segment of the reply), and when it yields fewer than 2 the
result is exactly the default `["Home", "About", "Contact"]`. -/
theorem c10_suggest_pages (t : String) :
    (suggestPagesFromReply t).length ≤ 8 ∧
    (2 ≤ (replySegments t).length →
      suggestPagesFromReply t = (replySegments t).take 8) ∧
    ((replySegments t).length < 2 →
      suggestPagesFromReply t = ["Home", "About", "Contact"]) ∧
    (∀ p ∈ suggestPagesFromReply t,
      2 ≤ (replySegments t).length → p ∈ replySegments t ∧ p ≠ "") := by
  by_cases h : replySegments t = [] ∨ (replySegments t).length < 2
  · have hlen : (replySegments t).length < 2 := by
      rcases h with h | h
      · simp [h]
      · exact h
    have he : suggestPagesFromReply t = ["Home", "About", "Contact"] := by
      unfold suggestPagesFromReply
      rw [if_pos h]
      rfl
    refine ⟨by rw [he]; decide, fun h2 => absurd h2 (by omega), fun _ => he, ?_⟩
    intro p _ h2
    exact absurd h2 (by omega)
  · have hlen : 2 ≤ (replySegments t).length := by
      rcases Nat.lt_or_ge (replySegments t).length 2 with h' | h'
      · exact absurd (Or.inr h') h
      · exact h'
    have he : suggestPagesFromReply t = (replySegments t).take 8 := by
      unfold suggestPagesFromReply
      rw [if_neg h]
    refine ⟨?_, fun _ => he, fun hlt => absurd hlt (by omega), ?_⟩
    · rw [he, List.length_take]
      omega
    · intro p hp _
      rw [he] at hp
      have hmem : p ∈ replySegments t := List.mem_of_mem_take hp
      refine ⟨hmem, ?_⟩
      have hf := List.of_mem_filter hmem
      simpa using hf

/-! ## String utilities -/

/-- Whether `needle` occurs as a contiguous substring of the second list. -/
def occursInChars (needle : List Char) : List Char → Bool
  | [] => needle.isPrefixOf []
  | c :: rest => needle.isPrefixOf (c :: rest) || occursInChars needle rest

/-- Substring occurrence on strings (Python `x in s`, JS `includes`). -/
def occursIn (needle hay : String) : Bool := occursInChars needle.data hay.data

theorem occursInChars_eq_true_iff (needle : List Char) :
    ∀ hay : List Char, occursInChars needle hay = true ↔ needle <:+: hay := by
  intro hay
  induction hay with
  | nil =>
    simp only [occursInChars, List.isPrefixOf_iff_prefix, List.infix_nil,
      List.prefix_nil]
  | cons c rest ih =>
    simp only [occursInChars, Bool.or_eq_true, List.isPrefixOf_iff_prefix, ih,
      List.infix_cons_iff]

/-! ## Python `json` model (for `generate_website`, `Complete.py` 488-538)

An executable model of `json.loads` and `json.JSONDecoder.raw_decode` on the
grammar Python's decoder accepts (objects, arrays, strings with escapes,
numbers, `true`/`false`/`null`, and the `NaN`/`Infinity` constants). Numeric
values are kept as their lexemes (float semantics is irrelevant to the
claims); `\uXXXX` escapes are decoded without surrogate pairing. Error
constructors mirror the distinct `JSONDecodeError` messages; only
`extraData` renders with the `"Extra data"` text that
`generate_website`'s recovery branch tests with `"Extra data" in str(e)`. -/

inductive JVal where
  | null
  | bool (b : Bool)
  | num (lexeme : String)
  | str (s : String)
  | arr (elems : List JVal)
  | obj (members : List (String × JVal))

inductive JErr where
  | expectingValue
  | extraData
  | expectingPropertyName
  | expectingColonDelimiter
  | expectingCommaDelimiter
  | unterminatedString
  | invalidEscape
  | invalidControlCharacter
  | outOfFuel
deriving DecidableEq

/-- The whitespace set of `json.decoder` (`WHITESPACE_STR`). -/
def jsonWs (c : Char) : Bool := c = ' ' || c = '\t' || c = '\n' || c = '\r'

def skipWs : List Char → List Char := List.dropWhile jsonWs

def isHexDig (c : Char) : Bool :=
  c.isDigit || ('a' ≤ c && c ≤ 'f') || ('A' ≤ c && c ≤ 'F')

def hexVal (c : Char) : Nat :=
  if c.isDigit then c.toNat - 48
  else if 'a' ≤ c then c.toNat - 87
  else c.toNat - 55

def escChar : Char → Option Char
  | '"' => some '"'
  | '\\' => some '\\'
  | '/' => some '/'
  | 'b' => some (Char.ofNat 8)
  | 'f' => some (Char.ofNat 12)
  | 'n' => some '\n'
  | 'r' => some '\r'
  | 't' => some '\t'
  | _ => none

/-- Python `py_scanstring`, after the opening quote: contents until the
closing quote, with escapes decoded and control characters rejected
(`strict=True`). -/
def parseStringBody : List Char → Except JErr (List Char × List Char)
  | [] => .error .unterminatedString
  | '"' :: rest => .ok ([], rest)
  | '\\' :: 'u' :: h1 :: h2 :: h3 :: h4 :: rest =>
    if isHexDig h1 && isHexDig h2 && isHexDig h3 && isHexDig h4 then
      match parseStringBody rest with
      | .ok (tail, rem) =>
        .ok (Char.ofNat
          (hexVal h1 * 4096 + hexVal h2 * 256 + hexVal h3 * 16 + hexVal h4)
          :: tail, rem)
      | .error e => .error e
    else .error .invalidEscape
  | '\\' :: e :: rest =>
    match escChar e with
    | some ec =>
      match parseStringBody rest with
      | .ok (tail, rem) => .ok (ec :: tail, rem)
      | .error err => .error err
    | none => .error .invalidEscape
  | c :: rest =>
    if c.toNat < 32 then .error .invalidControlCharacter
    else
      match parseStringBody rest with
      | .ok (tail, rem) => .ok (c :: tail, rem)
      | .error e => .error e

def spanDigits (l : List Char) : List Char × List Char :=
  (l.takeWhile Char.isDigit, l.dropWhile Char.isDigit)

/-- The `(\.\d+)?` group of the decoder's `NUMBER_RE`. -/
def parseFracPart : List Char → List Char × List Char
  | '.' :: rest =>
    match spanDigits rest with
    | ([], _) => ([], '.' :: rest)
    | (ds, r) => ('.' :: ds, r)
  | l => ([], l)

/-- The `([eE][-+]?\d+)?` group of `NUMBER_RE`. -/
def parseExpPart : List Char → List Char × List Char
  | c :: rest =>
    if c = 'e' ∨ c = 'E' then
      match rest with
      | sgn :: rest2 =>
        if sgn = '+' ∨ sgn = '-' then
          match spanDigits rest2 with
          | ([], _) => ([], c :: rest)
          | (ds, r) => (c :: sgn :: ds, r)
        else
          match spanDigits rest with
          | ([], _) => ([], c :: rest)
          | (ds, r) => (c :: ds, r)
      | [] => ([], [c])
    else ([], c :: rest)
  | [] => ([], [])

/-- The `(-?(?:0|[1-9]\d*))` group of `NUMBER_RE` (without the sign). -/
def parseIntPart : List Char → Option (List Char × List Char)
  | '0' :: rest => some (['0'], rest)
  | c :: rest =>
    if c.isDigit then
      match spanDigits rest with
      | (ds, r) => some (c :: ds, r)
    else none
  | [] => none

/-- Maximal match of `NUMBER_RE` at the head of the input, as lexeme and
remainder. -/
def parseNumberLex (l : List Char) : Option (List Char × List Char) :=
  match l with
  | '-' :: rest =>
    match parseIntPart rest with
    | some (ip, r1) =>
      match parseFracPart r1 with
      | (fp, r2) =>
        match parseExpPart r2 with
        | (ep, r3) => some ('-' :: (ip ++ fp ++ ep), r3)
    | none => none
  | _ =>
    match parseIntPart l with
    | some (ip, r1) =>
      match parseFracPart r1 with
      | (fp, r2) =>
        match parseExpPart r2 with
        | (ep, r3) => some (ip ++ fp ++ ep, r3)
    | none => none

mutual

/-- Python's `scan_once` with explicit fuel (each recursive step spends one
unit; `jsonFuel` below always suffices for the inputs used). The case order
follows `json.scanner`. -/
def parseValue : Nat → List Char → Except JErr (JVal × List Char)
  | 0, _ => .error .outOfFuel
  | f + 1, s =>
    match s with
    | '"' :: rest =>
      match parseStringBody rest with
      | .ok (cs, r) => .ok (.str (String.mk cs), r)
      | .error e => .error e
    | '\x7b' :: rest =>
      match parseObjectBody f (skipWs rest) with
      | .ok (ms, r) => .ok (.obj ms, r)
      | .error e => .error e
    | '[' :: rest =>
      match parseArrayBody f (skipWs rest) with
      | .ok (xs, r) => .ok (.arr xs, r)
      | .error e => .error e
    | 'n' :: 'u' :: 'l' :: 'l' :: rest => .ok (.null, rest)
    | 't' :: 'r' :: 'u' :: 'e' :: rest => .ok (.bool true, rest)
    | 'f' :: 'a' :: 'l' :: 's' :: 'e' :: rest => .ok (.bool false, rest)
    | _ =>
      match parseNumberLex s with
      | some (lex, rest) => .ok (.num (String.mk lex), rest)
      | none =>
        match s with
        | 'N' :: 'a' :: 'N' :: rest => .ok (.num "NaN", rest)
        | 'I' :: 'n' :: 'f' :: 'i' :: 'n' :: 'i' :: 't' :: 'y' :: rest =>
          .ok (.num "Infinity", rest)
        | '-' :: 'I' :: 'n' :: 'f' :: 'i' :: 'n' :: 'i' :: 't' :: 'y' :: rest =>
          .ok (.num "-Infinity", rest)
        | _ => .error .expectingValue
termination_by structural f _ => f

/-- `json.decoder.JSONObject` after the opening brace and whitespace. -/
def parseObjectBody : Nat → List Char → Except JErr (List (String × JVal) × List Char)
  | 0, _ => .error .outOfFuel
  | f + 1, s =>
    match s with
    | '\x7d' :: rest => .ok ([], rest)
    | '"' :: rest =>
      match parseStringBody rest with
      | .error e => .error e
      | .ok (key, r1) =>
        match skipWs r1 with
        | ':' :: r2 =>
          match parseValue f (skipWs r2) with
          | .error e => .error e
          | .ok (v, r3) =>
            match skipWs r3 with
            | '\x7d' :: r4 => .ok ([(String.mk key, v)], r4)
            | ',' :: r4 =>
              match parseObjectAfterComma f (skipWs r4) with
              | .error e => .error e
              | .ok (ms, r5) => .ok ((String.mk key, v) :: ms, r5)
            | _ => .error .expectingCommaDelimiter
        | _ => .error .expectingColonDelimiter
    | _ => .error .expectingPropertyName
termination_by structural f _ => f

/-- After a comma inside an object a trailing `\x7d` is rejected
(`Expecting property name enclosed in double quotes`). -/
def parseObjectAfterComma : Nat → List Char →
    Except JErr (List (String × JVal) × List Char)
  | 0, _ => .error .outOfFuel
  | f + 1, s =>
    match s with
    | '\x7d' :: _ => .error .expectingPropertyName
    | _ => parseObjectBody f s
termination_by structural f _ => f

/-- `json.decoder.JSONArray` after the opening bracket and whitespace. -/
def parseArrayBody : Nat → List Char → Except JErr (List JVal × List Char)
  | 0, _ => .error .outOfFuel
  | f + 1, s =>
    match s with
    | ']' :: rest => .ok ([], rest)
    | _ =>
      match parseValue f s with
      | .error e => .error e
      | .ok (v, r1) =>
        match skipWs r1 with
        | ']' :: r2 => .ok ([v], r2)
        | ',' :: r2 =>
          match parseArrayAfterComma f (skipWs r2) with
          | .error e => .error e
          | .ok (xs, r3) => .ok (v :: xs, r3)
        | _ => .error .expectingCommaDelimiter
termination_by structural f _ => f

/-- After a comma inside an array Python retries `scan_once`, so a trailing
`]` fails with `Expecting value`. -/
def parseArrayAfterComma : Nat → List Char → Except JErr (List JVal × List Char)
  | 0, _ => .error .outOfFuel
  | f + 1, s =>
    match s with
    | ']' :: _ => .error .expectingValue
    | _ => parseArrayBody f s
termination_by structural f _ => f

end

/-- Fuel that always suffices: each fuel unit spent consumes at least one
input character. -/
def jsonFuel (s : String) : Nat := 2 * s.length + 8

/-- Python `json.JSONDecoder.raw_decode(s)` at index 0 (no leading-whitespace
skip): one JSON value plus the index where parsing ended. -/
def rawDecode (s : String) : Except JErr (JVal × Nat) :=
  match parseValue (jsonFuel s) s.data with
  | .error e => .error e
  | .ok (v, rest) => .ok (v, s.length - rest.length)

/-- Python `json.loads`: skip leading whitespace, `raw_decode`, skip trailing
whitespace, and reject leftover input with `Extra data`. -/
def pyLoads (s : String) : Except JErr JVal :=
  match parseValue (jsonFuel s) (skipWs s.data) with
  | .error e => .error e
  | .ok (v, rest) => if skipWs rest = [] then .ok v else .error .extraData

/-- The test `"Extra data" in str(e)` of `generate_website`: of the decoder's
error messages only `Extra data: line .. column ..` contains that text. -/
def isExtraData : JErr → Bool
  | .extraData => true
  | _ => false

/-- The markdown-fence removal inside `generate_website`'s cleanup:
`if cleaned_text.startswith("```json"): cleaned_text = cleaned_text[7:]` and
`if cleaned_text.endswith("```"): cleaned_text = cleaned_text[:-3]`. -/
def cleanFences (s : String) : String :=
  let c1 := if "```json".data.isPrefixOf s.data then String.mk (s.data.drop 7) else s
  if "```".data.isSuffixOf c1.data
    then String.mk (c1.data.take (c1.data.length - 3)) else c1

/-- The cleanup of `generate_website` (`Complete.py` 492-497): strip, drop the
fences, strip again. -/
def cleanReply (responseText : String) : String :=
  pyStrip (cleanFences (pyStrip responseText))

/-- The `json.loads` call of `generate_website` with its single recovery
attempt (`Complete.py` 499-513): on a failure whose message contains
`Extra data`, `raw_decode` extracts the first well-formed JSON value and the
remainder is discarded; if that also fails the inner error is raised; any
other failure is re-raised unchanged. -/
def parseReply (responseText : String) : Except JErr JVal :=
  match pyLoads (cleanReply responseText) with
  | .ok v => .ok v
  | .error e =>
    if isExtraData e then
      match rawDecode (cleanReply responseText) with
      | .ok (v, _) => .ok v
      | .error inner => .error inner
    else .error e

/-! ### Claims C4 and C8 -/

theorem dropWhile_head_eq_false {α : Type} (p : α → Bool) :
    ∀ (l : List α) (c : α) (rest : List α),
      l.dropWhile p = c :: rest → p c = false := by
  intro l
  induction l with
  | nil => intro c rest h; simp [List.dropWhile] at h
  | cons a t ih =>
    intro c rest h
    rw [List.dropWhile_cons] at h
    by_cases hp : p a
    · rw [if_pos hp] at h
      exact ih c rest h
    · rw [if_neg hp] at h
      cases h
      simpa using hp

theorem jsonWs_isPySpace (c : Char) (h : jsonWs c = true) : isPySpace c = true := by
  simp only [jsonWs, Bool.or_eq_true, decide_eq_true_eq] at h
  rcases h with ((h | h) | h) | h <;> simp [isPySpace, h]

/-- A stripped reply has no leading whitespace left, so `json.loads`' leading
whitespace skip is the identity on it. -/
theorem skipWs_pyStripChars (l : List Char) :
    skipWs (pyStripChars l) = pyStripChars l := by
  unfold skipWs
  cases hres : pyStripChars l with
  | nil => simp
  | cons c rest =>
    have hpref : pyStripChars l <+: l.dropWhile isPySpace := by
      have hsuf : (l.dropWhile isPySpace).reverse.dropWhile isPySpace
          <:+ (l.dropWhile isPySpace).reverse := List.dropWhile_suffix _
      have h2 := List.reverse_prefix.mpr hsuf
      rw [List.reverse_reverse] at h2
      exact h2
    rw [hres] at hpref
    obtain ⟨ex, hex⟩ := hpref
    have hhead : isPySpace c = false := by
      refine dropWhile_head_eq_false isPySpace l c (rest ++ ex) ?_
      rw [← hex]
      rfl
    have hws : jsonWs c = false := by
      cases hj : jsonWs c
      · rfl
      · rw [jsonWs_isPySpace c hj] at hhead
        cases hhead
    rw [List.dropWhile_cons, if_neg (by simp [hws])]

theorem skipWs_pyStrip (t : String) :
    skipWs (pyStrip t).data = (pyStrip t).data :=
  skipWs_pyStripChars t.data

theorem skipWs_cleanReply (s : String) :
    skipWs (cleanReply s).data = (cleanReply s).data :=
  skipWs_pyStrip (cleanFences (pyStrip s))

set_option maxHeartbeats 1000000 in
/-- C4 (confirmed): the `MalformedReplyError` recovery of `generate_website`
is a single deterministic `raw_decode` attempt. On the spec's example input
`'\x7b"a":1\x7d' + newline + trailing garbage` it extracts the object
`\x7b"a": 1\x7d` and discards the remainder; when `json.loads` fails with
anything other than `Extra data` the original error is surfaced unchanged, and
in particular when no valid leading JSON value exists (`raw_decode` itself
fails) the original parse error is surfaced; when the loads failure is
`Extra data`, the value `raw_decode` extracts is returned. -/
theorem c4_json_recovery :
    parseReply "\x7b\"a\":1\x7d\nTRAILING GARBAGE" = .ok (.obj [("a", .num "1")]) ∧
    (∀ s e, pyLoads (cleanReply s) = .error e → isExtraData e = false →
      parseReply s = .error e) ∧
    (∀ s e v n, pyLoads (cleanReply s) = .error e → isExtraData e = true →
      rawDecode (cleanReply s) = .ok (v, n) → parseReply s = .ok v) ∧
    (∀ s e, rawDecode (cleanReply s) = .error e → parseReply s = .error e) := by
  refine ⟨rfl, ?_, ?_, ?_⟩
  · intro s e h1 h2
    unfold parseReply
    rw [h1]
    simp [h2]
  · intro s e v n h1 h2 h3
    unfold parseReply
    rw [h1]
    simp [h2, h3]
  · intro s e h
    have hpv : parseValue (jsonFuel (cleanReply s)) (cleanReply s).data
        = .error e := by
      unfold rawDecode at h
      cases hp : parseValue (jsonFuel (cleanReply s)) (cleanReply s).data with
      | ok pr =>
        rw [hp] at h
        cases pr
        simp at h
      | error e' =>
        rw [hp] at h
        simp at h
        rw [h]
    have hload : pyLoads (cleanReply s) = .error e := by
      unfold pyLoads
      rw [skipWs_cleanReply s, hpv]
    unfold parseReply
    rw [hload]
    by_cases hx : isExtraData e = true
    · simp [hx, h]
    · simp [hx]

/-- How the `try`/`except` of `generate_website` resolves: a re-raised JSON
error, the `ValueError` for a reply without the required top-level keys, a
`TypeError` from `in` on a non-container, or the accepted document. -/
inductive GenError where
  | parse (e : JErr)
  | missingKeys
  | pyTypeError

/-- Python `'k' in website_data`: key lookup on a dict, element equality on a
list (`==` between a `str` and a non-`str` element is `False`), substring test
on a `str`, and `TypeError` (`none`) on any other parsed value. -/
def pyContains (v : JVal) (k : String) : Option Bool :=
  match v with
  | .obj ms => some (ms.any (fun kv => kv.1 == k))
  | .arr xs => some (xs.any (fun x => match x with
      | .str c => c == k
      | _ => false))
  | .str c => some (occursIn k c)
  | _ => none

/-- The parsing and validation pipeline of `generate_website`
(`Complete.py` 490-516): parse (with recovery), then
`if 'pages' not in website_data or 'globalStyles' not in website_data: raise
ValueError(...)`; every failure propagates to the `except` clause, which
returns the error response and no document data. (The accepted document then
has image `src` fields filled in before `jsonify`; that step touches no other
part of the tree and cannot fail the request.) -/
def generateWebsiteData (responseText : String) : Except GenError JVal :=
  match parseReply responseText with
  | .error e => .error (.parse e)
  | .ok wd =>
    match pyContains wd "pages" with
    | none => .error .pyTypeError
    | some false => .error .missingKeys
    | some true =>
      match pyContains wd "globalStyles" with
      | none => .error .pyTypeError
      | some false => .error .missingKeys
      | some true => .ok wd

/-- C8 (confirmed): when the upstream reply cannot be parsed into a whole
document — unrecoverable JSON, or a parsed object missing the `pages` or
`globalStyles` key — `generate_website` surfaces an error and returns no
document data; and whenever it does return document data, that data is the
whole parsed reply. -/
theorem c8_reject_whole_reply (s : String) :
    (∀ e, parseReply s = .error e → generateWebsiteData s = .error (.parse e)) ∧
    (∀ ms, parseReply s = .ok (.obj ms) →
      (ms.any (fun kv => kv.1 == "pages") = false ∨
       ms.any (fun kv => kv.1 == "globalStyles") = false) →
      generateWebsiteData s = .error .missingKeys) ∧
    (∀ v, generateWebsiteData s = .ok v → parseReply s = .ok v) := by
  refine ⟨?_, ?_, ?_⟩
  · intro e h
    unfold generateWebsiteData
    rw [h]
  · intro ms h1 h2
    unfold generateWebsiteData
    rw [h1]
    rcases h2 with h2 | h2
    · simp [pyContains, h2]
    · cases hpg : ms.any (fun kv => kv.1 == "pages") <;>
        simp [pyContains, hpg, h2]
  · intro v hv
    unfold generateWebsiteData at hv
    cases hp : parseReply s with
    | error e => simp [hp] at hv
    | ok wd =>
      rw [hp] at hv
      cases hc1 : pyContains wd "pages" with
      | none => simp [hc1] at hv
      | some b1 =>
        cases b1 with
        | false => simp [hc1] at hv
        | true =>
          cases hc2 : pyContains wd "globalStyles" with
          | none => simp [hc1, hc2] at hv
          | some b2 =>
            cases b2 with
            | false => simp [hc1, hc2] at hv
            | true =>
              simp [hc1, hc2] at hv
              rw [hv]

/-! ## Document Model (the browser-side editor of `test.py`, lines 286-518)

A node of `websiteData.structure`: `id`, `type`, `content`, `styles`, an
optional `src` (images), and `children`. A node without a `children` field
behaves exactly like one with an empty array in every operation modelled here
(`findNodeAndParent` recurses into `[]` vacuously, `addChildElement` creates
the array before pushing), so `children` is a plain list. -/

inductive Node where
  | mk (id : String) (ty : String) (content : String)
      (styles : List (String × String)) (src : Option String)
      (children : List Node)

def Node.id : Node → String
  | .mk i _ _ _ _ _ => i

def Node.ty : Node → String
  | .mk _ t _ _ _ _ => t

def Node.content : Node → String
  | .mk _ _ c _ _ _ => c

def Node.styles : Node → List (String × String)
  | .mk _ _ _ st _ _ => st

def Node.src : Node → Option String
  | .mk _ _ _ _ sr _ => sr

def Node.children : Node → List Node
  | .mk _ _ _ _ _ ch => ch

/-- `findNodeAndParent(id, nodes = websiteData.structure, parent = null)`
(`test.py` 286-295): depth-first preorder search returning the first node with
the given id together with its parent (`none` for a top-level node). -/
def findNodeAndParent (sid : String) : List Node → Option Node → Option (Node × Option Node)
  | [], _ => none
  | Node.mk i t c st sr ch :: rest, parent =>
    if i = sid then some (Node.mk i t c st sr ch, parent)
    else
      match findNodeAndParent sid ch (some (Node.mk i t c st sr ch)) with
      | some found => some found
      | none => findNodeAndParent sid rest parent

/-- The mutation step of `deleteSelectedElement`:
`parent.children = parent.children.filter(child => child.id !== selectedElementId)`.
The JS mutates the one parent object found by reference; under the document
invariant that ids are unique (a hypothesis of the claims below) that object
is the unique node carrying the parent's id, so the reference mutation is
modelled as an update keyed by the parent's id. -/
def filterChildrenOf (pid cid : String) : List Node → List Node
  | [] => []
  | Node.mk i t c st sr ch :: rest =>
    (if i = pid then Node.mk i t c st sr (ch.filter fun n => n.id != cid)
     else Node.mk i t c st sr (filterChildrenOf pid cid ch))
      :: filterChildrenOf pid cid rest

/-- `deleteSelectedElement` (`test.py` 489-497): resolve the selected id;
destructuring a `null` result throws (`none`); a node without a parent (or a
parent without children) is left alone (`if (!parent || !parent.children)
return`); otherwise the node is filtered out of its parent's children. -/
def deleteSelectedElement (selId : String) (f : List Node) : Option (List Node) :=
  match findNodeAndParent selId f none with
  | none => none
  | some (_, none) => some f
  | some (_, some p) => some (filterChildrenOf p.id selId f)

/-- The `node.children.push(newElement)` of `addChildElement`, modelled as the
keyed update of the selected column (same reference-vs-id note as
`filterChildrenOf`). -/
def appendChildTo (pid : String) (c : Node) : List Node → List Node
  | [] => []
  | Node.mk i t ct st sr ch :: rest =>
    (if i = pid then Node.mk i t ct st sr (ch ++ [c])
     else Node.mk i t ct st sr (appendChildTo pid c ch))
      :: appendChildTo pid c rest

/-- The element object `addChildElement` builds (`test.py` 504-512); `ts` is
the `Date.now()` timestamp string and `primary` is
`websiteData.globalStyles.primaryColor`. -/
def newElement (ty ts primary : String) : Node :=
  Node.mk ("el-" ++ ts) ty ("New " ++ ty)
    (if ty = "button"
      then [("padding", "0.5rem 1rem"), ("background", primary),
            ("borderRadius", "0.5rem")]
      else [])
    (if ty = "image"
      then some "https://placehold.co/600x400/0f172a/e5e7eb?text=New+Image"
      else none)
    []

inductive AddResult where
  | ok (updated : List Node)
  | kindMismatch (unchanged : List Node)
  | jsError

/-- `addChildElement(type)` (`test.py` 499-518): only a selected node of type
`column` accepts the new child (appended at the end of its children);
otherwise the code alerts and leaves the document unchanged. -/
def addChildElement (selId ty ts primary : String) (f : List Node) : AddResult :=
  match findNodeAndParent selId f none with
  | none => AddResult.jsError
  | some (nd, _) =>
    if nd.ty = "column"
      then AddResult.ok (appendChildTo nd.id (newElement ty ts primary) f)
      else AddResult.kindMismatch f

/-- All nodes of a forest in preorder. -/
def allNodes : List Node → List Node
  | [] => []
  | Node.mk i t c st sr ch :: rest =>
    Node.mk i t c st sr ch :: (allNodes ch ++ allNodes rest)

/-- Every id occurring in the forest, in preorder. -/
def forestIds (f : List Node) : List String := (allNodes f).map Node.id

/-- Every id of a node's subtree (the node itself and its descendants). -/
def subtreeIds (n : Node) : List String := n.id :: forestIds n.children

/-! ### Tree lemmas -/

/-- Induction over a forest that also descends into children. -/
theorem forestInduction {P : List Node → Prop} (h0 : P [])
    (h1 : ∀ i t c st sr ch rest, P ch → P rest →
      P (Node.mk i t c st sr ch :: rest)) :
    ∀ f, P f
  | [] => h0
  | Node.mk i t c st sr ch :: rest =>
    h1 i t c st sr ch rest (forestInduction h0 h1 ch) (forestInduction h0 h1 rest)

theorem allNodes_cons (n : Node) (rest : List Node) :
    allNodes (n :: rest) = n :: (allNodes n.children ++ allNodes rest) := by
  cases n
  simp [allNodes, Node.children]

theorem forestIds_cons (n : Node) (rest : List Node) :
    forestIds (n :: rest) = subtreeIds n ++ forestIds rest := by
  cases n
  simp [forestIds, allNodes, subtreeIds, Node.id, Node.children]

theorem forestIds_nil : forestIds [] = [] := by simp [forestIds, allNodes]

theorem mem_forestIds_iff (d : String) :
    ∀ l : List Node, d ∈ forestIds l ↔ ∃ n ∈ l, d ∈ subtreeIds n := by
  intro l
  induction l with
  | nil => simp [forestIds_nil]
  | cons x rest ih =>
    rw [forestIds_cons]
    simp only [List.mem_append, ih, List.mem_cons]
    constructor
    · rintro (h | ⟨n, hn, hd⟩)
      · exact ⟨x, Or.inl rfl, h⟩
      · exact ⟨n, Or.inr hn, hd⟩
    · rintro ⟨n, h | hn, hd⟩
      · subst h; exact Or.inl hd
      · exact Or.inr ⟨n, hn, hd⟩

theorem subtree_subset_forest {n : Node} {l : List Node} (hn : n ∈ l) :
    ∀ d ∈ subtreeIds n, d ∈ forestIds l := by
  intro d hd
  exact (mem_forestIds_iff d l).mpr ⟨n, hn, hd⟩

theorem mem_allNodes_of_mem {n : Node} : ∀ {f : List Node}, n ∈ f → n ∈ allNodes f := by
  intro f
  induction f with
  | nil => intro h; cases h
  | cons x rest ih =>
    intro h
    rw [allNodes_cons]
    rcases List.mem_cons.mp h with h | h
    · subst h
      exact List.mem_cons_self _ _
    · exact List.mem_cons_of_mem _ (List.mem_append_right _ (ih h))

theorem subtreeIds_subset_of_mem_allNodes (d : String) :
    ∀ f : List Node, ∀ n ∈ allNodes f, d ∈ subtreeIds n → d ∈ forestIds f := by
  refine forestInduction ?_ ?_
  · intro n hn
    simp [allNodes] at hn
  · intro i t c st sr ch rest ihch ihrest n hn hd
    rw [allNodes_cons] at hn
    rw [forestIds_cons]
    rcases List.mem_cons.mp hn with h | h
    · subst h
      exact List.mem_append_left _ hd
    · rcases List.mem_append.mp h with h | h
      · have := ihch n (by simpa [Node.children] using h) hd
        refine List.mem_append_left _ ?_
        simp only [subtreeIds, Node.id, Node.children, forestIds]
        exact List.mem_cons_of_mem _ (by simpa [forestIds] using this)
      · exact List.mem_append_right _ (ihrest n h hd)

theorem mem_children_allNodes :
    ∀ f : List Node, ∀ p ∈ allNodes f, ∀ n ∈ p.children, n ∈ allNodes f := by
  refine forestInduction ?_ ?_
  · intro p hp
    simp [allNodes] at hp
  · intro i t c st sr ch rest ihch ihrest p hp n hn
    rw [allNodes_cons] at hp ⊢
    rcases List.mem_cons.mp hp with h | h
    · subst h
      refine List.mem_cons_of_mem _ (List.mem_append_left _ ?_)
      simpa [Node.children] using mem_allNodes_of_mem (by simpa [Node.children] using hn)
    · rcases List.mem_append.mp h with h | h
      · exact List.mem_cons_of_mem _
          (List.mem_append_left _ (ihch p (by simpa [Node.children] using h) n hn))
      · exact List.mem_cons_of_mem _ (List.mem_append_right _ (ihrest p h n hn))

theorem subtreeIds_mk (i t c : String) (st : List (String × String))
    (sr : Option String) (ch : List Node) :
    subtreeIds (Node.mk i t c st sr ch) = i :: forestIds ch := by
  simp [subtreeIds, Node.id, Node.children]

theorem id_mem_forestIds {p : Node} {f : List Node} (hp : p ∈ allNodes f) :
    p.id ∈ forestIds f :=
  List.mem_map_of_mem Node.id hp

theorem find_eq_none_iff (sid : String) :
    ∀ f : List Node, ∀ par,
      findNodeAndParent sid f par = none ↔ sid ∉ forestIds f := by
  refine forestInduction ?_ ?_
  · intro par
    simp [findNodeAndParent, forestIds_nil]
  · intro i t c st sr ch rest ihch ihrest par
    rw [forestIds_cons, subtreeIds_mk]
    simp only [findNodeAndParent]
    by_cases hid : i = sid
    · subst hid
      simp
    · rw [if_neg hid]
      have hid' : ¬ (sid = i) := fun h => hid h.symm
      cases hch : findNodeAndParent sid ch (some (Node.mk i t c st sr ch)) with
      | some found =>
        have hmem : sid ∈ forestIds ch := by
          by_contra hns
          rw [(ihch _).mpr hns] at hch
          cases hch
        simp [hmem]
      | none =>
        have hns : sid ∉ forestIds ch := (ihch _).mp hch
        rw [ihrest par]
        simp [hns, hid']

theorem find_id (sid : String) :
    ∀ f : List Node, ∀ par n q,
      findNodeAndParent sid f par = some (n, q) → n.id = sid := by
  refine forestInduction ?_ ?_
  · intro par n q h
    simp [findNodeAndParent] at h
  · intro i t c st sr ch rest ihch ihrest par n q h
    simp only [findNodeAndParent] at h
    by_cases hid : i = sid
    · rw [if_pos hid] at h
      simp only [Option.some.injEq, Prod.mk.injEq] at h
      obtain ⟨h1, h2⟩ := h
      rw [← h1, Node.id]
      exact hid
    · rw [if_neg hid] at h
      cases hch : findNodeAndParent sid ch (some (Node.mk i t c st sr ch)) with
      | some found =>
        rw [hch] at h
        injection h with h'
        subst h'
        exact ihch _ n q hch
      | none =>
        rw [hch] at h
        exact ihrest par n q h

theorem find_spec (sid : String) :
    ∀ f : List Node, ∀ par n q,
      findNodeAndParent sid f par = some (n, q) →
      n ∈ allNodes f ∧
      ((q = par ∧ n ∈ f) ∨ ∃ p, q = some p ∧ p ∈ allNodes f ∧ n ∈ p.children) := by
  refine forestInduction ?_ ?_
  · intro par n q h
    simp [findNodeAndParent] at h
  · intro i t c st sr ch rest ihch ihrest par n q h
    simp only [findNodeAndParent] at h
    rw [allNodes_cons]
    by_cases hid : i = sid
    · rw [if_pos hid] at h
      simp only [Option.some.injEq, Prod.mk.injEq] at h
      obtain ⟨h1, h2⟩ := h
      subst h2
      constructor
      · rw [← h1]
        exact List.mem_cons_self _ _
      · refine Or.inl ⟨rfl, ?_⟩
        rw [← h1]
        exact List.mem_cons_self _ _
    · rw [if_neg hid] at h
      cases hch : findNodeAndParent sid ch (some (Node.mk i t c st sr ch)) with
      | some found =>
        rw [hch] at h
        injection h with h'
        subst h'
        obtain ⟨hmem, hcase⟩ := ihch _ n q hch
        refine ⟨List.mem_cons_of_mem _ (List.mem_append_left _ hmem), ?_⟩
        rcases hcase with ⟨hq, hnch⟩ | ⟨p, hq, hp, hnp⟩
        · refine Or.inr ⟨Node.mk i t c st sr ch, hq, List.mem_cons_self _ _, ?_⟩
          simpa [Node.children] using hnch
        · exact Or.inr ⟨p, hq,
            List.mem_cons_of_mem _ (List.mem_append_left _ hp), hnp⟩
      | none =>
        rw [hch] at h
        obtain ⟨hmem, hcase⟩ := ihrest par n q h
        refine ⟨List.mem_cons_of_mem _ (List.mem_append_right _ hmem), ?_⟩
        rcases hcase with ⟨hq, hnr⟩ | ⟨p, hq, hp, hnp⟩
        · exact Or.inl ⟨hq, List.mem_cons_of_mem _ hnr⟩
        · exact Or.inr ⟨p, hq,
            List.mem_cons_of_mem _ (List.mem_append_right _ hp), hnp⟩

theorem uniq_subtree :
    ∀ l : List Node, (forestIds l).Nodup →
      ∀ n ∈ l, ∀ c ∈ l, ∀ d, d ∈ subtreeIds n → d ∈ subtreeIds c → n = c := by
  intro l
  induction l with
  | nil =>
    intro _ n hn
    cases hn
  | cons x rest ih =>
    intro hnd n hn c hc d hdn hdc
    rw [forestIds_cons, List.nodup_append] at hnd
    obtain ⟨hnd1, hnd2, hdisj⟩ := hnd
    rcases List.mem_cons.mp hn with hn1 | hn2
    · rcases List.mem_cons.mp hc with hc1 | hc2
      · rw [hn1, hc1]
      · have hdx : d ∈ subtreeIds x := hn1 ▸ hdn
        have hdr : d ∈ forestIds rest := subtree_subset_forest hc2 d hdc
        exact (hdisj hdx hdr).elim
    · rcases List.mem_cons.mp hc with hc1 | hc2
      · have hdx : d ∈ subtreeIds x := hc1 ▸ hdc
        have hdr : d ∈ forestIds rest := subtree_subset_forest hn2 d hdn
        exact (hdisj hdx hdr).elim
      · exact ih hnd2 n hn2 c hc2 d hdn hdc

theorem forestIds_filter_subset (g : Node → Bool) (d : String) :
    ∀ l : List Node, d ∈ forestIds (l.filter g) → d ∈ forestIds l := by
  intro l
  induction l with
  | nil =>
    intro h
    simpa [forestIds_nil] using h
  | cons x rest ih =>
    intro h
    rw [List.filter_cons] at h
    rw [forestIds_cons]
    by_cases hg : g x = true
    · rw [if_pos hg, forestIds_cons] at h
      rcases List.mem_append.mp h with h | h
      · exact List.mem_append_left _ h
      · exact List.mem_append_right _ (ih h)
    · rw [if_neg hg] at h
      exact List.mem_append_right _ (ih h)

theorem filterChildrenOf_ids_subset (pid cid d : String) :
    ∀ f : List Node,
      d ∈ forestIds (filterChildrenOf pid cid f) → d ∈ forestIds f := by
  refine forestInduction ?_ ?_
  · intro h
    simpa [filterChildrenOf, forestIds_nil] using h
  · intro i t c st sr ch rest ihch ihrest h
    simp only [filterChildrenOf] at h
    rw [forestIds_cons, subtreeIds_mk]
    by_cases hip : i = pid
    · rw [if_pos hip, forestIds_cons, subtreeIds_mk] at h
      rcases List.mem_append.mp h with h | h
      · rcases List.mem_cons.mp h with h | h
        · refine List.mem_append_left _ ?_
          rw [h]
          exact List.mem_cons_self _ _
        · exact List.mem_append_left _
            (List.mem_cons_of_mem _ (forestIds_filter_subset _ d ch h))
      · exact List.mem_append_right _ (ihrest h)
    · rw [if_neg hip, forestIds_cons, subtreeIds_mk] at h
      rcases List.mem_append.mp h with h | h
      · rcases List.mem_cons.mp h with h | h
        · refine List.mem_append_left _ ?_
          rw [h]
          exact List.mem_cons_self _ _
        · exact List.mem_append_left _ (List.mem_cons_of_mem _ (ihch h))
      · exact List.mem_append_right _ (ihrest h)

/-- Key lemma for C5: under the unique-id invariant, filtering the deleted
node out of its parent's children removes every id of the deleted subtree from
the document. -/
theorem delete_removes (pid cid : String) (nd : Node) (hnid : nd.id = cid) :
    ∀ f : List Node, (forestIds f).Nodup →
      ∀ p ∈ allNodes f, p.id = pid → nd ∈ p.children →
      ∀ d ∈ subtreeIds nd, d ∉ forestIds (filterChildrenOf pid cid f) := by
  refine forestInduction ?_ ?_
  · intro _ p hp
    simp [allNodes] at hp
  · intro i t c st sr ch rest ihch ihrest hdup p hp hpid hmem d hd hdmem
    rw [forestIds_cons, subtreeIds_mk, List.nodup_append] at hdup
    obtain ⟨hnd1, hnd2, hdisj⟩ := hdup
    have hich : i ∉ forestIds ch := (List.nodup_cons.mp hnd1).1
    have hndch : (forestIds ch).Nodup := (List.nodup_cons.mp hnd1).2
    rw [allNodes_cons] at hp
    simp only [filterChildrenOf] at hdmem
    rw [forestIds_cons] at hdmem
    rcases List.mem_cons.mp hp with hpx | hpx'
    · -- the parent is the head node itself
      have hip : i = pid := by
        rw [← hpid, hpx, Node.id]
      have hmemch : nd ∈ ch := by
        have := hmem
        rw [hpx, Node.children] at this
        exact this
      have hdch : d ∈ forestIds ch := subtree_subset_forest hmemch d hd
      rw [if_pos hip, subtreeIds_mk] at hdmem
      rcases List.mem_append.mp hdmem with hx | hx
      · rcases List.mem_cons.mp hx with hx | hx
        · exact hich (hx ▸ hdch)
        · obtain ⟨cc, hcc, hdcc⟩ := (mem_forestIds_iff d _).mp hx
          obtain ⟨hccch, hgcc⟩ := List.mem_filter.mp hcc
          have : nd = cc := uniq_subtree ch hndch nd hmemch cc hccch d hd hdcc
          rw [← this, hnid] at hgcc
          simp at hgcc
      · exact hdisj (List.mem_cons_of_mem _ hdch)
          (filterChildrenOf_ids_subset pid cid d rest hx)
    · rcases List.mem_append.mp hpx' with hpch | hprest
      · -- the parent is inside the head's children
        have hpidch : pid ∈ forestIds ch := hpid ▸ id_mem_forestIds hpch
        have hip : ¬ (i = pid) := fun h => hich (h ▸ hpidch)
        have hndall : nd ∈ allNodes ch := mem_children_allNodes ch p hpch nd hmem
        have hdch : d ∈ forestIds ch :=
          subtreeIds_subset_of_mem_allNodes d ch nd hndall hd
        rw [if_neg hip, subtreeIds_mk] at hdmem
        rcases List.mem_append.mp hdmem with hx | hx
        · rcases List.mem_cons.mp hx with hx | hx
          · exact hich (hx ▸ hdch)
          · exact ihch hndch p hpch hpid hmem d hd hx
        · exact hdisj (List.mem_cons_of_mem _ hdch)
            (filterChildrenOf_ids_subset pid cid d rest hx)
      · -- the parent is in the tail forest
        have hpidrest : pid ∈ forestIds rest := hpid ▸ id_mem_forestIds hprest
        have hip : ¬ (i = pid) := fun h =>
          hdisj (List.mem_cons_self i (forestIds ch)) (by rw [h]; exact hpidrest)
        have hndall : nd ∈ allNodes rest := mem_children_allNodes rest p hprest nd hmem
        have hdrest : d ∈ forestIds rest :=
          subtreeIds_subset_of_mem_allNodes d rest nd hndall hd
        rw [if_neg hip, subtreeIds_mk] at hdmem
        rcases List.mem_append.mp hdmem with hx | hx
        · rcases List.mem_cons.mp hx with hx | hx
          · refine hdisj (List.mem_cons_self i (forestIds ch)) ?_
            rw [← hx]
            exact hdrest
          · exact hdisj (List.mem_cons_of_mem _
              (filterChildrenOf_ids_subset pid cid d ch hx)) hdrest
        · exact ihrest hnd2 p hprest hpid hmem d hd hx

theorem appendChildTo_eq_of_not_mem (pid : String) (cnew : Node) :
    ∀ f : List Node, pid ∉ forestIds f → appendChildTo pid cnew f = f := by
  refine forestInduction ?_ ?_
  · intro _
    simp [appendChildTo]
  · intro i t c st sr ch rest ihch ihrest h
    rw [forestIds_cons, subtreeIds_mk] at h
    have h1 : ¬ (i = pid) := fun he =>
      h (List.mem_append_left _ (by rw [he]; exact List.mem_cons_self _ _))
    have h2 : pid ∉ forestIds ch := fun hm =>
      h (List.mem_append_left _ (List.mem_cons_of_mem _ hm))
    have h3 : pid ∉ forestIds rest := fun hm => h (List.mem_append_right _ hm)
    simp only [appendChildTo, if_neg h1, ihch h2, ihrest h3]

/-- Key lemma for C6: appending a child to the found node leaves it findable,
now carrying the new child at the end of its children. -/
theorem find_appendChildTo (sid : String) (cnew : Node) :
    ∀ f : List Node, ∀ par par' (n : Node) (q : Option Node),
      findNodeAndParent sid f par = some (n, q) →
      ∃ q', findNodeAndParent sid (appendChildTo sid cnew f) par' =
        some (Node.mk n.id n.ty n.content n.styles n.src
          (n.children ++ [cnew]), q') := by
  refine forestInduction ?_ ?_
  · intro par par' n q h
    simp [findNodeAndParent] at h
  · intro i t c st sr ch rest ihch ihrest par par' n q h
    simp only [findNodeAndParent] at h
    simp only [appendChildTo]
    by_cases hid : i = sid
    · rw [if_pos hid] at h
      simp only [Option.some.injEq, Prod.mk.injEq] at h
      obtain ⟨h1, h2⟩ := h
      rw [if_pos hid]
      refine ⟨par', ?_⟩
      simp only [findNodeAndParent, if_pos hid]
      rw [← h1]
      simp [Node.id, Node.ty, Node.content, Node.styles, Node.src, Node.children]
    · rw [if_neg hid] at h
      rw [if_neg hid]
      cases hch : findNodeAndParent sid ch (some (Node.mk i t c st sr ch)) with
      | some found =>
        rw [hch] at h
        injection h with h'
        subst h'
        obtain ⟨q', hq'⟩ := ihch (some (Node.mk i t c st sr ch))
          (some (Node.mk i t c st sr (appendChildTo sid cnew ch))) n q hch
        refine ⟨q', ?_⟩
        simp only [findNodeAndParent, if_neg hid, hq']
      | none =>
        rw [hch] at h
        have hnotin : sid ∉ forestIds ch := (find_eq_none_iff sid ch _).mp hch
        have happ : appendChildTo sid cnew ch = ch :=
          appendChildTo_eq_of_not_mem sid cnew ch hnotin
        obtain ⟨q', hq'⟩ := ihrest par par' n q h
        refine ⟨q', ?_⟩
        simp only [findNodeAndParent, if_neg hid, happ]
        rw [(find_eq_none_iff sid ch _).mpr hnotin]
        exact hq'

/-! ### Claims C5 and C6 -/

/-- C5 (confirmed): for a node id resolving to a non-top-level node (its
parent is not `null`), `deleteSelectedElement` removes the node and its whole
subtree from the parent's children; afterwards `findNodeAndParent` resolves
neither the deleted id nor the id of any node of the removed subtree. The
hypothesis `(forestIds f).Nodup` is the document invariant that ids are unique
across the document. -/
theorem c5_delete_subtree (f : List Node) (cid : String) (nd p : Node)
    (hnodup : (forestIds f).Nodup)
    (hfind : findNodeAndParent cid f none = some (nd, some p)) :
    ∃ f', deleteSelectedElement cid f = some f' ∧
      findNodeAndParent cid f' none = none ∧
      ∀ d ∈ subtreeIds nd, findNodeAndParent d f' none = none := by
  have hnid : nd.id = cid := find_id cid f none nd (some p) hfind
  obtain ⟨hmem, hcase⟩ := find_spec cid f none nd (some p) hfind
  have hp : p ∈ allNodes f ∧ nd ∈ p.children := by
    rcases hcase with ⟨hq, _⟩ | ⟨p', hq, hp', hnp'⟩
    · simp at hq
    · injection hq with hq'
      subst hq'
      exact ⟨hp', hnp'⟩
  refine ⟨filterChildrenOf p.id cid f, ?_, ?_, ?_⟩
  · unfold deleteSelectedElement
    rw [hfind]
  · rw [find_eq_none_iff]
    refine delete_removes p.id cid nd hnid f hnodup p hp.1 rfl hp.2 cid ?_
    simp [subtreeIds, hnid]
  · intro d hd
    rw [find_eq_none_iff]
    exact delete_removes p.id cid nd hnid f hnodup p hp.1 rfl hp.2 d hd

/-- C6 (confirmed): inserting a new child under the selected node succeeds
exactly when that node's type is `column` — any other type alerts and leaves
the document unchanged — and on success the new element is appended at the end
of the column's children, the existing children and their order untouched. -/
theorem c6_insert_child (f : List Node) (selId ty ts primary : String)
    (nd : Node) (q : Option Node)
    (hfind : findNodeAndParent selId f none = some (nd, q)) :
    (nd.ty ≠ "column" →
      addChildElement selId ty ts primary f = .kindMismatch f) ∧
    (nd.ty = "column" →
      addChildElement selId ty ts primary f =
        .ok (appendChildTo nd.id (newElement ty ts primary) f) ∧
      ∃ q', findNodeAndParent selId
          (appendChildTo nd.id (newElement ty ts primary) f) none =
        some (Node.mk nd.id nd.ty nd.content nd.styles nd.src
          (nd.children ++ [newElement ty ts primary]), q')) := by
  have hnid : nd.id = selId := find_id selId f none nd q hfind
  constructor
  · intro hne
    unfold addChildElement
    rw [hfind]
    dsimp only
    rw [if_neg hne]
  · intro hcol
    constructor
    · unfold addChildElement
      rw [hfind]
      dsimp only
      rw [if_pos hcol]
    · rw [show appendChildTo nd.id (newElement ty ts primary) f =
          appendChildTo selId (newElement ty ts primary) f from by rw [hnid]]
      exact find_appendChildTo selId (newElement ty ts primary) f none none nd q hfind

/-- A small document: one section containing one column containing one text
element. -/
def exCol : Node := Node.mk "col" "column" "" [] none
  [Node.mk "t1" "text" "Hi" [] none []]

def exRoot : Node := Node.mk "root" "section" "" [] none [exCol]

def exForest : List Node := [exRoot]

/-- Witness for C5's theorem: deleting the column removes it and its text
child; neither `col` nor `t1` resolves afterwards. -/
theorem c5_delete_subtree_witness :
    ∃ f', deleteSelectedElement "col" exForest = some f' ∧
      findNodeAndParent "col" f' none = none ∧
      ∀ d ∈ subtreeIds exCol, findNodeAndParent d f' none = none := by
  refine c5_delete_subtree exForest "col" exCol exRoot ?_ ?_
  · simp [exForest, exRoot, exCol, forestIds, allNodes, Node.id, Node.children]
  · simp [exForest, exRoot, exCol, findNodeAndParent]

/-- Witness for C6's theorem: adding a text element to the column appends it
after the existing child, and adding to the section (not a column) leaves the
document unchanged. -/
theorem c6_insert_child_witness :
    addChildElement "col" "text" "123" "#4f46e5" exForest =
      .ok (appendChildTo "col" (newElement "text" "123" "#4f46e5") exForest) ∧
    (∃ q', findNodeAndParent "col"
        (appendChildTo "col" (newElement "text" "123" "#4f46e5") exForest) none =
      some (Node.mk "col" "column" "" [] none
        ([Node.mk "t1" "text" "Hi" [] none []] ++
          [newElement "text" "123" "#4f46e5"]), q')) ∧
    addChildElement "root" "text" "123" "#4f46e5" exForest =
      .kindMismatch exForest := by
  have h1 := c6_insert_child exForest "col" "text" "123" "#4f46e5" exCol
    (some exRoot) (by simp [exForest, exRoot, exCol, findNodeAndParent])
  have h2 := c6_insert_child exForest "root" "text" "123" "#4f46e5" exRoot
    none (by simp [exForest, exRoot, exCol, findNodeAndParent])
  have hcol := h1.2 (by simp [exCol, Node.ty])
  refine ⟨hcol.1, hcol.2, h2.1 (by simp [exRoot, Node.ty])⟩

/-! ## Renderer (`Complete.py` preview editor, lines 599-978)

The document model of the `/preview` editor: `websiteData` holds
`globalStyles` and `pages`; each page has absolutely-positioned `elements`.
Style maps are insertion-ordered association lists (as JS object properties
are for string keys). An element's `link` is a string (`""` plays the role of
an absent/falsy value in the `el.link &&` tests); `hoverStyles` is a map, with
an absent map modelled as the empty list (both render nothing). -/

structure Element where
  id : String
  ty : String
  content : String
  link : String
  src : Option String
  styles : List (String × String)
  hoverStyles : List (String × String)

structure Page where
  id : String
  name : String
  styles : List (String × String)
  elements : List Element

structure GlobalStyles where
  fontFamily : String
  backgroundColor : String
  textColor : String
  primaryColor : String
  secondaryColor : String
  accentColor : String

structure WebsiteData where
  globalStyles : GlobalStyles
  pages : List Page

/-- JS property lookup on a style map. -/
def lookupKey (m : List (String × String)) (k : String) : Option String :=
  (m.find? (fun kv => kv.1 == k)).map (fun kv => kv.2)

/-- JS `a || b` for a possibly-absent string: `undefined` and `""` are falsy. -/
def jsOr (v : Option String) (dflt : String) : String :=
  match v with
  | some v' => if v' = "" then dflt else v'
  | none => dflt

/-- JS truthiness of a possibly-absent string. -/
def jsTruthy : Option String → Bool
  | some v => v != ""
  | none => false

/-- `key.replace(/[A-Z]/g, letter => \x60-$\x7bletter.toLowerCase()\x7d\x60)`:
camelCase to kebab-case. -/
def cssKey (k : String) : String :=
  String.mk (k.data.foldr (fun c acc =>
    if c.isUpper then '-' :: c.toLower :: acc else c :: acc) [])

/-- The ASCII part of the JS `\s` class (the font names at issue are ASCII). -/
def jsWsChar (c : Char) : Bool :=
  c = ' ' || c = '\t' || c = '\n' || c = '\r' || c = '\x0b' || c = '\x0c'

/-- `global.fontFamily.split(',')[0].replace(/'/g, "").replace(/\s/g, '+')`
(identical in `renderWebsite` and `downloadHTML`). -/
def googleFontOf (fontFamily : String) : String :=
  String.mk (((fontFamily.data.takeWhile (fun c => c != ','))
    |>.filter (fun c => c != Char.ofNat 39))
    |>.map (fun c => if jsWsChar c then '+' else c))

/-- `content.replace(/</g, "&lt;").replace(/>/g, "&gt;")` (the replacements
introduce no further `<`/`>`, so the two sequential passes equal one pass). -/
def escapeLtGt (s : String) : String :=
  String.mk (s.data.foldr (fun c acc =>
    if c = '<' then '&' :: 'l' :: 't' :: ';' :: acc
    else if c = '>' then '&' :: 'g' :: 't' :: ';' :: acc
    else c :: acc) [])

/-- The inline-style accumulation
`for (const [key, value] of Object.entries(el.styles)) styles += ...`
starting from `init`. -/
def inlineStyleFrom (init : String) (styles : List (String × String)) : String :=
  styles.foldl (fun acc kv => acc ++ cssKey kv.1 ++ ": " ++ kv.2 ++ "; ") init

/-- The `#<id>:hover` selector both renderers emit for an element. -/
def hoverSelector (el : Element) : String := "#" ++ el.id ++ ":hover"

/-- One conditional line of a hover rule:
`cond ? \x60prefix value suffix\x60 : ''`. -/
def hoverCondPart (m : List (String × String)) (k pre post : String) : String :=
  match lookupKey m k with
  | some v => if v = "" then "" else pre ++ v ++ post
  | none => ""

/-- Whether a hover rule is emitted:
`el.hoverStyles && (el.hoverStyles.backgroundColor || el.hoverStyles.transform)`. -/
def hoverEmitted (el : Element) : Bool :=
  jsTruthy (lookupKey el.hoverStyles "backgroundColor")
    || jsTruthy (lookupKey el.hoverStyles "transform")

/-- The body of the hover rule `downloadHTML` builds (after the selector),
with the template literal's own newlines and indentation. -/
def exportHoverRuleTail (el : Element) : String :=
  " \x7b\n"
  ++ "                            "
  ++ hoverCondPart el.hoverStyles "backgroundColor" "background-color: " " !important;"
  ++ "\n"
  ++ "                            "
  ++ hoverCondPart el.hoverStyles "transform" "transform: " ";"
  ++ "\n"
  ++ "                            transition: all 0.2s ease-in-out;\n"
  ++ "                        \x7d"

/-- One element's contribution to `hoverCss` in `downloadHTML` (lines
950-956). -/
def elementHoverRule (el : Element) : String :=
  if hoverEmitted el then hoverSelector el ++ exportHoverRuleTail el else ""

def pageHoverCss (p : Page) : String :=
  String.join (p.elements.map elementHoverRule)

/-- The full `hoverCss` accumulated over all pages and elements in order. -/
def allHoverCss (d : WebsiteData) : String :=
  String.join (d.pages.map pageHoverCss)

/-- One element's markup in `downloadHTML` (lines 958-960). -/
def elementHtml (el : Element) : String :=
  let styles := inlineStyleFrom "" el.styles
  if el.ty = "image" then
    "<img id=\"" ++ el.id ++ "\" src=\"" ++ jsOr el.src "" ++ "\" style=\""
      ++ styles ++ "\">"
  else if el.ty = "button" then
    "<button id=\"" ++ el.id ++ "\" style=\"" ++ styles ++ "\">" ++ el.content
      ++ "</button>"
  else
    "<div id=\"" ++ el.id ++ "\" style=\"" ++ styles ++ "\">" ++ el.content
      ++ "</div>"

/-- The link wrapping of `downloadHTML` line 962. -/
def elementWithLink (el : Element) : String :=
  if el.link ≠ "" ∧ el.link ≠ "#" then
    "<a href=\"" ++ el.link ++ "\" target=\"_blank\">" ++ elementHtml el ++ "</a>"
  else elementHtml el

/-- One page's `<section>` in `downloadHTML` (lines 943-964). -/
def pageSectionHtml (p : Page) : String :=
  "<section id=\"" ++ p.id ++ "\" style=\"background-color: "
    ++ jsOr (lookupKey p.styles "backgroundColor") "transparent"
    ++ "; padding: " ++ jsOr (lookupKey p.styles "padding") "0" ++ ";\">"
    ++ String.join (p.elements.map elementWithLink) ++ "</section>"

/-- `websiteData.pages.map(p => ...).join('')` of the nav bar (line 937). -/
def navLinks (pages : List Page) : String :=
  String.join (pages.map (fun p => "<a href=\"#" ++ p.id ++ "\">" ++ p.name ++ "</a>"))

/-- The string pattern of `finalHtml.replace(...)` (line 967). -/
def hoverPlaceholderPat : String := "<style id=\"hover-styles\"></style>"

/-- Everything of `downloadHTML`'s head template before the hover-styles
placeholder (lines 916-934 of `Complete.py`, with the template literal's
newlines and indentation). -/
def downloadHeaderPre (d : WebsiteData) : String :=
  "<!DOCTYPE html><html lang=\"en\"><head><meta charset=\"UTF-8\">\n"
  ++ "                <meta name=\"viewport\" content=\"width=device-width, initial-scale=1.0\">\n"
  ++ "                <title>My Awesome Website</title>\n"
  ++ "                <link rel=\"preconnect\" href=\"https://fonts.googleapis.com\">\n"
  ++ "                <link rel=\"preconnect\" href=\"https://fonts.gstatic.com\" crossorigin>\n"
  ++ "                <link href=\"https://fonts.googleapis.com/css2?family="
  ++ googleFontOf d.globalStyles.fontFamily
  ++ ":wght@400;700&display=swap\" rel=\"stylesheet\">\n"
  ++ "                <style>\n"
  ++ "                :root \x7b\n"
  ++ "                    --background-color: " ++ d.globalStyles.backgroundColor
  ++ "; --text-color: " ++ d.globalStyles.textColor ++ ";\n"
  ++ "                    --primary-color: " ++ d.globalStyles.primaryColor
  ++ "; --secondary-color: " ++ d.globalStyles.secondaryColor ++ ";\n"
  ++ "                    --accent-color: " ++ d.globalStyles.accentColor ++ ";\n"
  ++ "                \x7d\n"
  ++ "                html \x7b scroll-behavior: smooth; \x7d\n"
  ++ "                body \x7b font-family: " ++ d.globalStyles.fontFamily
  ++ "; background-color: var(--background-color); color: var(--text-color); margin: 0;\x7d\n"
  ++ "                nav \x7b position: fixed; top: 0; left: 0; right: 0; background: rgba(30, 41, 59, 0.7); backdrop-filter: blur(10px); padding: 1rem 2rem; z-index: 1000; display: flex; justify-content: center; gap: 1.5rem; \x7d\n"
  ++ "                nav a \x7b color: var(--text-color); text-decoration: none; font-weight: 500; transition: color 0.2s ease; \x7d\n"
  ++ "                nav a:hover \x7b color: var(--accent-color); \x7d\n"
  ++ "                section \x7b min-height: 100vh; position: relative; \x7d\n"
  ++ "                </style>\n"
  ++ "                "

/-- The rest of the head template after the placeholder (lines 935-938). -/
def downloadHeaderPost (d : WebsiteData) : String :=
  "\n"
  ++ "                </head><body>\n"
  ++ "                <nav>" ++ navLinks d.pages ++ "</nav>\n"
  ++ "            "

/-- The `finalHtml` of `downloadHTML` before the sections are appended. -/
def downloadHeader (d : WebsiteData) : String :=
  downloadHeaderPre d ++ (hoverPlaceholderPat ++ downloadHeaderPost d)

/-- JS `String.prototype.replace` with a string pattern: replace the first
occurrence, identity when absent. (The `$`-substitution JS would perform on
special sequences inside the replacement is not modelled; the replacement
text here is CSS the editor itself built.) -/
def replaceFirstAux (pat repl : List Char) : List Char → List Char
  | [] => if pat.isPrefixOf [] then repl else []
  | c :: rest =>
    if pat.isPrefixOf (c :: rest) then repl ++ (c :: rest).drop pat.length
    else c :: replaceFirstAux pat repl rest

def jsReplaceFirst (pat repl s : String) : String :=
  String.mk (replaceFirstAux pat.data repl.data s.data)

/-- `downloadHTML`'s markup construction (`Complete.py` 912-969): header and
nav, one `<section>` per page, the accumulated `hoverCss` substituted for the
placeholder, and the closing tags. The `Blob`/anchor-click download mechanics
carry the string unchanged. -/
def downloadHTML (d : WebsiteData) : String :=
  jsReplaceFirst hoverPlaceholderPat
    ("<style>" ++ allHoverCss d ++ "</style>")
    (downloadHeader d ++ String.join (d.pages.map pageSectionHtml))
  ++ "</body></html>"

/-! ### Preview renderer (`renderWebsite`, lines 631-700) -/

/-- The body of a preview hover rule after the selector (lines 642-647;
the preview template is indented four spaces less than the export one). -/
def previewHoverRuleTail (el : Element) : String :=
  " \x7b\n"
  ++ "                        "
  ++ hoverCondPart el.hoverStyles "backgroundColor" "background-color: " " !important;"
  ++ "\n"
  ++ "                        "
  ++ hoverCondPart el.hoverStyles "transform" "transform: " ";"
  ++ "\n"
  ++ "                        transition: all 0.2s ease-in-out;\n"
  ++ "                    \x7d"

def previewHoverRule (el : Element) : String :=
  if hoverEmitted el then hoverSelector el ++ previewHoverRuleTail el else ""

def previewHoverCss (p : Page) : String :=
  String.join (p.elements.map previewHoverRule)

/-- One element's markup in the preview frame (lines 670-687): absolute
positioning prefix, `editable-element` class, content escaped for buttons and
raw for div/text. -/
def previewElementHtml (el : Element) : String :=
  let styles := inlineStyleFrom "position: absolute;" el.styles
  if el.ty = "image" then
    "<img id=\"" ++ el.id ++ "\" src=\"" ++ jsOr el.src ""
      ++ "\" class=\"editable-element\" style=\"" ++ styles ++ "\">"
  else if el.ty = "button" then
    "<button id=\"" ++ el.id ++ "\" class=\"editable-element\" style=\""
      ++ styles ++ "\">" ++ escapeLtGt el.content ++ "</button>"
  else
    "<div id=\"" ++ el.id ++ "\" class=\"editable-element\" style=\""
      ++ styles ++ "\">" ++ el.content ++ "</div>"

/-- The preview head up to (and including) the indentation before
`$\x7bhoverStyles\x7d` (lines 650-662). -/
def previewHeadPre (d : WebsiteData) : String :=
  "\n            <head>\n"
  ++ "                <link rel=\"preconnect\" href=\"https://fonts.googleapis.com\">\n"
  ++ "                <link rel=\"preconnect\" href=\"https://fonts.gstatic.com\" crossorigin>\n"
  ++ "                <link href=\"https://fonts.googleapis.com/css2?family="
  ++ googleFontOf d.globalStyles.fontFamily
  ++ ":wght@400;700&display=swap\" rel=\"stylesheet\">\n"
  ++ "                <style>\n"
  ++ "                    :root \x7b\n"
  ++ "                        --background-color: " ++ d.globalStyles.backgroundColor
  ++ "; --text-color: " ++ d.globalStyles.textColor ++ ";\n"
  ++ "                        --primary-color: " ++ d.globalStyles.primaryColor
  ++ "; --secondary-color: " ++ d.globalStyles.secondaryColor ++ ";\n"
  ++ "                        --accent-color: " ++ d.globalStyles.accentColor ++ ";\n"
  ++ "                    \x7d\n"
  ++ "                    body \x7b font-family: " ++ d.globalStyles.fontFamily
  ++ "; background-color: var(--background-color); color: var(--text-color); margin: 0; position: relative; min-height: 100vh;\x7d\n"
  ++ "                    .editable-element \x7b cursor: pointer; box-sizing: border-box; \x7d\n"
  ++ "                    "

/-- Everything of the preview document after `$\x7bhoverStyles\x7d` (lines
663-697): the rest of the head, the page container with its elements, and the
selection script. -/
def previewTail (d : WebsiteData) (page : Page) : String :=
  "\n"
  ++ "                </style>\n"
  ++ "            </head>\n"
  ++ "            <body>"
  ++ "<div id=\"page-container\" style=\"position: relative; width: 100%; height: 100vh; background-color: "
  ++ jsOr (lookupKey page.styles "backgroundColor") "transparent" ++ ";\">"
  ++ String.join (page.elements.map previewElementHtml)
  ++ "</div>"
  ++ "<script>\n                document.addEventListener(\x27click\x27, (e) => \x7b\n                    if (e.target.classList.contains(\x27editable-element\x27)) \x7b\n                        window.parent.postMessage(\x7b type: \x27elementSelected\x27, id: e.target.id \x7d, \x27*\x27);\n                    \x7d\n                \x7d);\n            </script></body>"

def renderWebsiteBody (d : WebsiteData) (page : Page) : String :=
  previewHeadPre d ++ (previewHoverCss page ++ previewTail d page)

/-- `renderWebsite` (lines 631-700): the srcdoc of the editor frame for the
current page; `if (!page) return` leaves the frame untouched (`none`). -/
def renderWebsite (d : WebsiteData) (currentPageId : String) : Option String :=
  match d.pages.find? (fun p => p.id == currentPageId) with
  | none => none
  | some page => some (renderWebsiteBody d page)

/-! ### Claims C7 and C9 -/

/-- C7 (confirmed): rendering the same document in export mode twice without
mutating it in between produces byte-identical strings. The embedding
exhibits `downloadHTML`'s markup construction as a pure function of
`websiteData` alone — the source reads no clock, no random source, and no
other ambient state while building `finalHtml` (all iteration is over the
document's own insertion-ordered lists) — so the equality is definitional. -/
theorem c7_export_deterministic (d : WebsiteData) :
    downloadHTML d = downloadHTML d := rfl

theorem infix_append_left_str (n : String) (a b : String)
    (h : n.data <:+: a.data) : n.data <:+: (a ++ b).data := by
  rw [String.data_append]
  exact h.trans (List.prefix_append a.data b.data).isInfix

theorem infix_append_right_str (n : String) (a b : String)
    (h : n.data <:+: b.data) : n.data <:+: (a ++ b).data := by
  rw [String.data_append]
  exact h.trans (List.suffix_append a.data b.data).isInfix

theorem join_data : ∀ l : List String,
    (String.join l).data = (l.map String.data).join := by
  have aux : ∀ (l : List String) (acc : String),
      (l.foldl (fun r s => r ++ s) acc).data
        = acc.data ++ (l.map String.data).join := by
    intro l
    induction l with
    | nil => intro acc; simp
    | cons a t ih =>
      intro acc
      simp only [List.foldl_cons, ih, List.map_cons, List.join_cons,
        String.data_append, List.append_assoc]
  intro l
  have h := aux l ""
  simpa using h

theorem infix_join_of_mem {x : String} {l : List String} (h : x ∈ l) :
    x.data <:+: (String.join l).data := by
  rw [join_data]
  exact List.infix_of_mem_join (List.mem_map_of_mem String.data h)

theorem jsReplaceFirst_data (pat repl s : String) :
    (jsReplaceFirst pat repl s).data
      = replaceFirstAux pat.data repl.data s.data := rfl

/-- When the pattern occurs in the haystack, the replacement text occurs in
the result of `replaceFirstAux`. -/
theorem replaceFirstAux_contains (pat repl : List Char) :
    ∀ hay : List Char, pat <:+: hay → repl <:+: replaceFirstAux pat repl hay := by
  intro hay
  induction hay with
  | nil =>
    intro h
    rw [List.infix_nil] at h
    subst h
    simp [replaceFirstAux, List.infix_refl]
  | cons c rest ih =>
    intro h
    simp only [replaceFirstAux]
    by_cases hp : pat.isPrefixOf (c :: rest) = true
    · rw [if_pos hp]
      exact (List.prefix_append repl _).isInfix
    · rw [if_neg hp]
      have hnp : ¬ pat <+: (c :: rest) := fun hpre =>
        hp (List.isPrefixOf_iff_prefix.mpr hpre)
      have h' : pat <:+: rest := by
        rcases List.infix_cons_iff.mp h with h' | h'
        · exact absurd h' hnp
        · exact h'
      exact List.infix_cons_iff.mpr (Or.inr (ih h'))

/-- C9 (amended): for every element whose hover-style map carries a truthy
(non-empty) `backgroundColor` or `transform` entry, both the preview and the
export renderings emit a separate stylesheet rule keyed by the element's node
id — the selector `#<id>:hover` — inside a `<style>` block, distinct from the
element's inline `style="..."` string: the export substitutes the accumulated
rules for the `hover-styles` placeholder, the preview interpolates them into
its `<style>` block. (A non-empty hover map carrying neither of those two
keys emits no rule; see the counterexample.) -/
theorem c9_hover_rules (d : WebsiteData) (pid : String) (page : Page)
    (el : Element)
    (hfind : d.pages.find? (fun p => p.id == pid) = some page)
    (hel : el ∈ page.elements)
    (hh : hoverEmitted el = true) :
    occursIn (hoverSelector el) (downloadHTML d) = true ∧
    ∃ html, renderWebsite d pid = some html ∧
      occursIn (hoverSelector el) html = true := by
  have hpage : page ∈ d.pages := List.mem_of_find?_eq_some hfind
  have hrule_exp : (hoverSelector el).data <:+: (elementHoverRule el).data := by
    unfold elementHoverRule
    rw [if_pos hh, String.data_append]
    exact (List.prefix_append _ _).isInfix
  have hrule_prev : (hoverSelector el).data <:+: (previewHoverRule el).data := by
    unfold previewHoverRule
    rw [if_pos hh, String.data_append]
    exact (List.prefix_append _ _).isInfix
  have h1 : (elementHoverRule el).data <:+: (pageHoverCss page).data :=
    infix_join_of_mem (List.mem_map_of_mem elementHoverRule hel)
  have h2 : (pageHoverCss page).data <:+: (allHoverCss d).data :=
    infix_join_of_mem (List.mem_map_of_mem pageHoverCss hpage)
  have hcss : (hoverSelector el).data <:+: (allHoverCss d).data :=
    (hrule_exp.trans h1).trans h2
  constructor
  · unfold occursIn
    rw [occursInChars_eq_true_iff]
    unfold downloadHTML
    refine infix_append_left_str _ _ _ ?_
    rw [jsReplaceFirst_data]
    have hpat : hoverPlaceholderPat.data <:+:
        (downloadHeader d ++ String.join (d.pages.map pageSectionHtml)).data := by
      refine infix_append_left_str _ _ _ ?_
      unfold downloadHeader
      refine infix_append_right_str _ _ _ ?_
      exact infix_append_left_str _ _ _ (List.infix_refl _)
    have hreplinfix := replaceFirstAux_contains hoverPlaceholderPat.data
      ("<style>" ++ allHoverCss d ++ "</style>").data _ hpat
    refine List.IsInfix.trans ?_ hreplinfix
    refine infix_append_left_str _ ("<style>" ++ allHoverCss d) "</style>" ?_
    exact infix_append_right_str _ "<style>" (allHoverCss d) hcss
  · refine ⟨renderWebsiteBody d page, ?_, ?_⟩
    · unfold renderWebsite
      rw [hfind]
    · unfold occursIn
      rw [occursInChars_eq_true_iff]
      unfold renderWebsiteBody
      refine infix_append_right_str _ _ _ ?_
      refine infix_append_left_str _ _ _ ?_
      exact hrule_prev.trans
        (infix_join_of_mem (List.mem_map_of_mem previewHoverRule hel))

/-- An element whose hover map is non-empty but holds neither
`backgroundColor` nor `transform`. -/
def c9El : Element := ⟨"e1", "button", "B", "#", none, [], [("color", "red")]⟩

def c9Page : Page := ⟨"p", "P", [], [c9El]⟩

def c9Doc : WebsiteData :=
  ⟨⟨"F", "#000", "#fff", "#111", "#222", "#333"⟩, [c9Page]⟩

set_option maxHeartbeats 4000000 in
set_option maxRecDepth 20000 in
/-- Counterexample to C9 as stated: `c9El`'s hover-style map is non-empty,
yet neither the export nor the preview rendering contains any `#e1:hover`
rule — the renderers test only the `backgroundColor` and `transform` keys. -/
theorem c9_counterexample :
    c9El.hoverStyles = [("color", "red")] ∧
    c9El.hoverStyles ≠ [] ∧
    occursIn (hoverSelector c9El) (downloadHTML c9Doc) = false ∧
    renderWebsite c9Doc "p" = some (renderWebsiteBody c9Doc c9Page) ∧
    occursIn (hoverSelector c9El) (renderWebsiteBody c9Doc c9Page) = false := by
  refine ⟨rfl, by decide, ?_, rfl, ?_⟩ <;> rfl

/-- A button with a truthy hover background. -/
def c9ElB : Element :=
  ⟨"e2", "button", "B", "#", none, [], [("backgroundColor", "var(--primary-color)")]⟩

def c9PageB : Page := ⟨"q", "Q", [], [c9ElB]⟩

def c9DocB : WebsiteData :=
  ⟨⟨"F", "#000", "#fff", "#111", "#222", "#333"⟩, [c9PageB]⟩

/-- Witness for C9's theorem: the hover rule `#e2:hover` occurs in both
renderings of `c9DocB`. -/
theorem c9_hover_rules_witness :
    occursIn (hoverSelector c9ElB) (downloadHTML c9DocB) = true ∧
    ∃ html, renderWebsite c9DocB "q" = some html ∧
      occursIn (hoverSelector c9ElB) html = true :=
  c9_hover_rules c9DocB "q" c9PageB c9ElB rfl (List.mem_cons_self _ _) rfl

end WebGen